import Mathlib

/-!
Verification of the execdmscript value-marshaling engine
(`execdmscript/execdmscript.py`) against its natural-language specification.

The Python module is shallowly embedded below:

* Python runtime types that the module inspects are `PyType`; Python values
  that the module marshals are `PyValue`.  Float payloads never influence any
  verified claim, so the `.float` constructor carries an `Int` placeholder
  payload; no claim below depends on floating-point arithmetic.
* Python exceptions become `Except PyExn`; the constructors mirror the
  exception classes raised by the source (`LookupError`, `ValueError`,
  `UnicodeDecodeError`, `RecursionError`).
* Python `str` values are Lean `String`s (a list of unicode code points,
  matching CPython semantics for the code points that occur here);
  dm-script byte strings are `List Nat` with every entry `< 256`.
* Recursive procedures of the source that recurse through dynamic data are
  embedded with an explicit fuel argument standing for CPython's recursion
  limit / the scan position; exhausting fuel maps to `PyExn.recursionError`.
  All theorems either use concrete fuel or quantify over sufficient fuel.

Each claim of the specification is settled by one theorem near the end of
the file; helper lemmas are shared.
-/

set_option maxRecDepth 10000

namespace Execdmscript

/-- Python exceptions raised by the embedded code paths. -/
inductive PyExn where
  | lookupError
  | valueError
  | typeError
  | unicodeDecodeError
  | recursionError
  | keyError
  | attributeError
  deriving DecidableEq, Repr

/-- Python runtime types that `execdmscript` inspects (`type(value)` results
and type objects used as dictionary values / map entries). -/
inductive PyType where
  | int
  | float
  | bool
  | str
  | dict
  | list
  | tuple
  | noneType
  deriving DecidableEq, Repr

/-- Python values accepted by the marshaling code (the `Convertable` union of
the source: int, float, bool, str, dict, list, tuple, None).  Dictionary keys
are strings, as required by the code generator.  Float payloads are modelled
by an opaque integer tag, since no verified claim depends on them. -/
inductive PyValue where
  | int (n : Int)
  | float (payload : Int)
  | bool (b : Bool)
  | str (s : String)
  | none
  | list (xs : List PyValue)
  | tuple (xs : List PyValue)
  | dict (xs : List (String × PyValue))

/-- Embeds Python `type(value)`. -/
def typeOf : PyValue → PyType
  | .int _ => .int
  | .float _ => .float
  | .bool _ => .bool
  | .str _ => .str
  | .none => .noneType
  | .list _ => .list
  | .tuple _ => .tuple
  | .dict _ => .dict

/-- Argument of `get_dm_type` / `get_python_type`: either a free-form type
name (Python `str`) or a Python type object. -/
inductive TypeExpr where
  | str (s : String)
  | ty (t : PyType)
  deriving DecidableEq, Repr

/-- Entry `python` field of `_python_dm_type_map`: either a single type or
the tuple `(list, tuple)`. -/
inductive PyTypeField where
  | one (t : PyType)
  | two (a b : PyType)
  deriving DecidableEq, Repr

/-- One entry of `_python_dm_type_map`. -/
structure TypeDef where
  python : PyTypeField
  tagGroup : String
  dmscript : String
  names : List String
  deriving DecidableEq, Repr

/-- Embeds the module-level table `_python_dm_type_map`, entry for entry. -/
def python_dm_type_map : List TypeDef :=
  [ { python := .one .int, tagGroup := "Long", dmscript := "number",
      names := ["long", "integer", "int", "uint32", "uint16"] },
    { python := .one .float, tagGroup := "Float", dmscript := "number",
      names := ["float", "double", "decimal", "realnumber", "number"] },
    { python := .one .bool, tagGroup := "Boolean", dmscript := "number",
      names := ["bool", "boolean"] },
    { python := .one .str, tagGroup := "String", dmscript := "string",
      names := ["string", "text"] },
    { python := .one .dict, tagGroup := "TagGroup", dmscript := "TagGroup",
      names := ["TagGroup", "dict"] },
    { python := .two .list .tuple, tagGroup := "TagGroup", dmscript := "TagGroup",
      names := ["TagList", "list"] } ]

/-- Embeds `str.lower()` for the code points relevant to the type registry:
ASCII uppercase letters are shifted to lowercase, everything else is kept.
(CPython lowercases further unicode letters, but their lowercase forms are
never equal to the pure-ASCII registry names, so the membership tests below
are unaffected.) -/
def pyStrLower (s : String) : String :=
  String.mk (s.data.map fun c =>
    if 65 ≤ c.toNat ∧ c.toNat ≤ 90 then Char.ofNat (c.toNat + 32) else c)

/-- Lowercasing step applied to the `datatype` argument of both lookup
functions (`datatype = datatype.lower()` when it is a string). -/
def TypeExpr.lower : TypeExpr → TypeExpr
  | .str s => .str (pyStrLower s)
  | .ty t => .ty t

/-- Condition of the lookup loop shared by `get_dm_type` and
`get_python_type`: `datatype in names` (names lowercased) or `datatype`
is/sits in the entry's Python type(s).  A string never equals a type object
and never occurs in the type tuple, and a type object never occurs in the
name list, exactly as in Python. -/
def typeDefMatches (datatype : TypeExpr) (td : TypeDef) : Bool :=
  match datatype with
  | .str s => (td.names.map pyStrLower).contains s
  | .ty t =>
    match td.python with
    | .one t' => t = t'
    | .two a b => t = a || t = b

/-- Embeds `get_dm_type(datatype, for_taggroup)`: first matching entry of
`_python_dm_type_map` wins, `LookupError` when none matches. -/
def get_dm_type (datatype : TypeExpr) (for_taggroup : Bool) :
    Except PyExn String :=
  match python_dm_type_map.find? (typeDefMatches datatype.lower) with
  | Option.some td => .ok (if for_taggroup then td.tagGroup else td.dmscript)
  | Option.none => .error .lookupError

/-- Embeds `get_python_type(datatype)`; for the `(list, tuple)` entry the
first member of the tuple is returned (`type_def["python"][0]`). -/
def get_python_type (datatype : TypeExpr) : Except PyExn PyType :=
  match python_dm_type_map.find? (typeDefMatches datatype.lower) with
  | Option.some td =>
    .ok (match td.python with
         | .one t => t
         | .two a _ => a)
  | Option.none => .error .lookupError

/-! ## Identifier escaping (`escape_dm_variable`) -/

/-- Embeds the character class `\w` of the compiled pattern
`re.compile(r"[^\w\d_]")` under CPython's default unicode semantics for
`str` patterns: ASCII alphanumerics, the underscore, and the further
alphanumeric code points of Latin-1 (the ordinal indicators, the micro
sign, superscript and fraction digits, and the accented letters other
than `×` and `÷`).  Code points at and above 256 are outside the modelled
domain (the theorems below restrict their inputs to Latin-1), so the
definition simply accepts them. -/
def pyWordChar (c : Char) : Bool :=
  let n := c.toNat
  (48 ≤ n && n ≤ 57) || (65 ≤ n && n ≤ 90) || n == 95 ||
  (97 ≤ n && n ≤ 122) ||
  n == 0xAA || n == 0xB2 || n == 0xB3 || n == 0xB5 || n == 0xB9 ||
  n == 0xBA || (0xBC ≤ n && n ≤ 0xBE) ||
  (0xC0 ≤ n && n ≤ 0xFF && n != 0xD7 && n != 0xF7) ||
  256 ≤ n

/-- Embeds `escape_dm_variable`: `re.sub` of the pattern `[^\w\d_]` by `"_"`,
then `ValueError` exactly when the substituted name is empty. -/
def escape_dm_variable (variable_name : String) : Except PyExn String :=
  let name :=
    String.mk (variable_name.data.map fun c => if pyWordChar c then c else '_')
  if name = "" then .error .valueError else .ok name

/-- Follows the words of the specification for comparison (refinement):
`escapeIdentifier` is claimed to replace every character outside
`[A-Za-z0-9_]` — i.e. outside the ASCII alphanumerics plus underscore —
by an underscore. -/
def escape_dm_variable_claimed (variable_name : String) : Except PyExn String :=
  let name :=
    String.mk (variable_name.data.map fun c =>
      if c.isAlphanum || c = '_' then c else '_')
  if name = "" then .error .valueError else .ok name

/-! ## Merging `setvars` into `readvars` (`DMScriptWrapper.__init__`) -/

/-- Membership test `key in readvars` for the dictionary model (association
list in insertion order, keys unique). -/
def dictContains (d : List (String × α)) (k : String) : Bool :=
  d.any fun e => e.1 == k

/-- Dictionary read `readvars[key]` (first matching entry). -/
def dictLookup (d : List (String × α)) (k : String) : Option α :=
  (d.find? fun e => e.1 == k).map Prod.snd

/-- Loop body of the `__init__` merge: `if not key in self.readvars:
self.readvars[key] = type(val)` (a write of a fresh key appends to the
insertion order). -/
def readvarsMergeStep (rv : List (String × TypeExpr)) (kv : String × PyValue) :
    List (String × TypeExpr) :=
  if dictContains rv kv.1 then rv else rv ++ [(kv.1, .ty (typeOf kv.2))]

/-- Loop of the `__init__` merge over the `setvars` items. -/
def readvarsMergeFold (rv : List (String × TypeExpr))
    (sv : List (String × PyValue)) : List (String × TypeExpr) :=
  sv.foldl readvarsMergeStep rv

/-- Embeds the tail of `DMScriptWrapper.__init__` (pure view): when
`setvars` is a dict, `readvars` is replaced by `{}` unless it is a dict,
and then every `setvars` item whose key is absent is added with the
runtime type of the caller's value. -/
def addSetvarsToReadvars (readvars : Option (List (String × TypeExpr)))
    (setvars : Option (List (String × PyValue))) :
    Option (List (String × TypeExpr)) :=
  match setvars with
  | Option.none => readvars
  | Option.some sv => Option.some (readvarsMergeFold (readvars.getD []) sv)

/-! ## Heap view of `__init__`: the caller's `readvars` dict is aliased -/

/-- Readvars dictionary contents. -/
abbrev RvDict := List (String × TypeExpr)

/-- Tiny heap of dictionary objects; an address is an index.  Used to state
the frame/aliasing behaviour of `__init__`, which stores the very
caller-supplied dict object in `self.readvars` and then mutates it. -/
structure Heap where
  dicts : List RvDict

/-- Dereference a dictionary address. -/
def Heap.getDict (h : Heap) (a : Nat) : RvDict := (h.dicts.get? a).getD []

/-- Overwrite the dictionary object at an address. -/
def Heap.setDict (h : Heap) (a : Nat) (d : RvDict) : Heap := ⟨h.dicts.set a d⟩

/-- Heap-level loop body of the `__init__` merge, mutating the dict object
at `addr` in place. -/
def initReadvarsStep (addr : Nat) (h : Heap) (kv : String × PyValue) : Heap :=
  if dictContains (h.getDict addr) kv.1 then h
  else h.setDict addr (h.getDict addr ++ [(kv.1, .ty (typeOf kv.2))])

/-- Embeds the tail of `DMScriptWrapper.__init__` at the heap level:
`self.readvars = readvars` aliases the caller's dict object (no copy); when
`setvars` is a dict and `readvars` was not, a fresh empty dict is
allocated; then absent `setvars` keys are written through the alias.
Returns the final heap and the address stored in `self.readvars`. -/
def initReadvars (h : Heap) (readvarsArg : Option Nat)
    (setvars : Option (List (String × PyValue))) : Heap × Option Nat :=
  match setvars with
  | Option.none => (h, readvarsArg)
  | Option.some sv =>
    let (h1, addr) :=
      match readvarsArg with
      | Option.some a => (h, a)
      | Option.none => (⟨h.dicts ++ [[]]⟩, h.dicts.length)
    (sv.foldl (initReadvarsStep addr) h1, Option.some addr)

/-! ## String escaping and value rendering for code synthesis -/

/-- Character-wise form of `escape_dm_string`: the source chains five
`str.replace` calls (backslash, double quote, newline, tab, NUL, in that
order); because the backslash doubling runs first and the later
replacements never introduce characters targeted by a later step, the
chain equals this single character map. -/
def escDmChar (c : Char) : List Char :=
  if c = '\\' then ['\\', '\\']
  else if c = '"' then ['\\', '"']
  else if c = '\n' then ['\\', 'n']
  else if c = '\t' then ['\\', 't']
  else if c.toNat = 0 then ['\\', '0']
  else [c]

/-- Embeds `escape_dm_string`. -/
def escape_dm_string (s : String) : String :=
  String.mk (s.data.map escDmChar).flatten

/-- Little-endian decimal digit values of `n`, with fuel (`n` itself
suffices, since `n / 10 < n` for positive `n`). -/
def decDigitsAux : Nat → Nat → List Nat
  | 0, _ => []
  | _ + 1, 0 => []
  | fuel + 1, n => n % 10 :: decDigitsAux fuel (n / 10)

/-- Decimal digit characters of a natural number, most significant first
(the rendering of a non-negative integer by both Python's `str()` and
dm-script's number-to-string coercion). -/
def decDigits (n : Nat) : List Char :=
  if n = 0 then ['0']
  else (decDigitsAux n n).reverse.map fun d => Char.ofNat (48 + d)

/-- Decimal rendering of a natural number (`str()` of a non-negative
Python int). -/
def natRepr (n : Nat) : String := String.mk (decDigits n)

/-- Embeds `int()` on a non-empty ASCII digit string (the only shape the
matched group `[\d]+` can take). -/
def digitsToNat (ds : List Char) : Nat :=
  ds.foldl (fun a c => 10 * a + (c.toNat - 48)) 0

/-- Embeds `str()` of a Python int. -/
def pyIntRepr : Int → String
  | .ofNat m => natRepr m
  | .negSucc m => "-" ++ natRepr (m + 1)

/-- Rendering of a float payload.  Float formatting is outside the
modelled domain (no claim depends on it); the opaque payload is shown. -/
def floatRepr (payload : Int) : String := "<float " ++ pyIntRepr payload ++ ">"

/-- Rendering `"{}".format(value)` of a non-string scalar in
`getDMCodeForVariable` (note that a Python bool formats as `True`/`False`
there, since only `str` values are quoted). -/
def formatScalarValue : PyValue → String
  | .int n => pyIntRepr n
  | .bool b => if b then "True" else "False"
  | .float p => floatRepr p
  | .str s => s
  | .none => "None"
  | .list _ => "<list>"
  | .tuple _ => "<tuple>"
  | .dict _ => "<dict>"

/-! ## Value-to-code synthesis (`getDMCodeForVariable` and
`_getTagGroupDMCodeForVariable`)

The nested recursion of `_getTagGroupDMCodeForVariable` is embedded with
an explicit fuel argument standing for CPython's recursion limit; the
fuel is also consumed once per element so that the mutual block is
structurally recursive.  Exhausting it yields `PyExn.recursionError`,
which never occurs in any theorem below (concrete inputs use ample fuel,
general statements quantify over successor fuel). -/

/-- Requests of the defunctionalized synthesizer `synCode` (the four
mutually recursive procedures of the element loop are merged into one
fuel-structural function so that all evaluations reduce by `rfl`). -/
inductive SynReq where
  | group (name : String) (value : PyValue) (declare_type : Bool)
      (pfx : String) (depth : Nat)
  | listElems (var name pfx : String) (depth i : Nat) (xs : List PyValue)
  | dictElems (var index name pfx : String) (depth i : Nat)
      (xs : List (String × PyValue))
  | fix (name pfx : String) (depth i : Nat) (v : PyValue)

/-- Single recursive engine behind `_getTagGroupDMCodeForVariable`.  The
`.group` request embeds the procedure body (container-creation statement,
index declaration for dicts, element loop); `.listElems` / `.dictElems`
embed the element loop for a list/dict parent; `.fix` embeds the shared
head of the loop body (the `None` fallback to storage type `"Number"`
with literal `0`, quoting for strings, `int()` for bools, recursive
synthesis of nested containers under the generated name
`prefix + name + "_tg_" + i + "_" + (depth+1)`), returning the extra
lines emitted before the insert statement, the storage type, and the
rendered value text.  Requests producing plain lines return the lines in
the first component. -/
def synCode : Nat → SynReq → Except PyExn (List String × String × String)
  | 0, _ => .error .recursionError
  | fuel + 1, .group name value declare_type pfx depth => do
    let py_type := typeOf value
    let dm_type ← get_dm_type (.ty py_type) false
    let creator := if py_type = .dict then "NewTagGroup()" else "NewTagList()"
    let var ← escape_dm_variable (pfx ++ name)
    let declLine :=
      if declare_type then dm_type ++ " " ++ var ++ " = " ++ creator ++ ";"
      else var ++ " = " ++ creator ++ ";"
    match value with
    | .dict kvs => do
      let nameEsc ← escape_dm_variable name
      let index := "__exec_dmscript_" ++ nameEsc ++ "_index"
      let elemLines ← synCode fuel (.dictElems var index name pfx depth 0 kvs)
      return (declLine :: ("number " ++ index ++ ";") :: elemLines.1, "", "")
    | .list xs => do
      let elemLines ← synCode fuel (.listElems var name pfx depth 0 xs)
      return (declLine :: elemLines.1, "", "")
    | .tuple xs => do
      let elemLines ← synCode fuel (.listElems var name pfx depth 0 xs)
      return (declLine :: elemLines.1, "", "")
    | _ => .error .typeError
  | _ + 1, .fix _ _ _ _ .none => .ok ([], "Number", "0")
  | fuel + 1, .fix name _ depth i v => do
    let value_dm_type ← get_dm_type (.ty (typeOf v)) true
    match v with
    | .str s => .ok ([], value_dm_type, "\"" ++ escape_dm_string s ++ "\"")
    | .bool b => .ok ([], value_dm_type, if b then "1" else "0")
    | .int k => .ok ([], value_dm_type, pyIntRepr k)
    | .float p => .ok ([], value_dm_type, floatRepr p)
    | v' => do
      let nameEsc ← escape_dm_variable name
      let n := nameEsc ++ "_tg_" ++ natRepr i ++ "_" ++ natRepr (depth + 1)
      let sub ← synCode fuel (.group n v' true "__exec_dmscript_" (depth + 1))
      .ok ("" :: sub.1, value_dm_type, "__exec_dmscript_" ++ n)
  | _ + 1, .listElems _ _ _ _ _ [] => .ok ([], "", "")
  | fuel + 1, .listElems var name pfx depth i (v :: rest) => do
    let fx ← synCode fuel (.fix name pfx depth i v)
    let line := var ++ ".TagGroupInsertTagAs" ++ fx.2.1
      ++ "(infinity(), " ++ fx.2.2 ++ ");"
    let restLines ← synCode fuel (.listElems var name pfx depth (i + 1) rest)
    return (fx.1 ++ line :: restLines.1, "", "")
  | _ + 1, .dictElems _ _ _ _ _ _ [] => .ok ([], "", "")
  | fuel + 1, .dictElems var index name pfx depth i ((k, v) :: rest) => do
    let fx ← synCode fuel (.fix name pfx depth i v)
    let line1 := index ++ " = " ++ var ++ ".TagGroupCreateNewLabeledTag(\""
      ++ escape_dm_string k ++ "\");"
    let line2 := var ++ ".TagGroupSetIndexedTagAs" ++ fx.2.1
      ++ "(" ++ index ++ ", " ++ fx.2.2 ++ ");"
    let restLines ← synCode fuel (.dictElems var index name pfx depth (i + 1) rest)
    return (fx.1 ++ line1 :: line2 :: restLines.1, "", "")

/-- Embeds `_getTagGroupDMCodeForVariable(name, value, declare_type,
prefix, depth)` (lines view of `synCode`). -/
def tagGroupCode (fuel : Nat) (name : String) (value : PyValue)
    (declare_type : Bool) (pfx : String) (depth : Nat) :
    Except PyExn (List String) :=
  (synCode fuel (.group name value declare_type pfx depth)).map (·.1)

/-- Element-loop body head (see `synCode`, `.fix` request). -/
def elemFix (fuel : Nat) (name pfx : String) (depth i : Nat) (v : PyValue) :
    Except PyExn (List String × String × String) :=
  synCode fuel (.fix name pfx depth i v)

/-- Element loop for a list/tuple parent (see `synCode`). -/
def listElemsCode (fuel : Nat) (var name pfx : String) (depth i : Nat)
    (xs : List PyValue) : Except PyExn (List String) :=
  (synCode fuel (.listElems var name pfx depth i xs)).map (·.1)

/-- Element loop for a dict parent (see `synCode`). -/
def dictElemsCode (fuel : Nat) (var index name pfx : String) (depth i : Nat)
    (xs : List (String × PyValue)) : Except PyExn (List String) :=
  (synCode fuel (.dictElems var index name pfx depth i xs)).map (·.1)

/-- Fuel passed to the synthesizer, standing for CPython's recursion
limit; generously larger than any input considered here. -/
def recursionLimit : Nat := 1000

/-- Embeds `getDMCodeForVariable(name, value, declare_type)`.  Note the
order of operations of the source: `get_dm_type(type(value))` runs first,
so a top-level `None` raises `LookupError` before any fallback can apply. -/
def getDMCodeForVariable (name : String) (value : PyValue)
    (declare_type : Bool) : Except PyExn String := do
  let py_type := typeOf value
  let dm_type ← get_dm_type (.ty py_type) false
  if py_type = .dict ∨ py_type = .list ∨ py_type = .tuple then do
    let lines ← tagGroupCode recursionLimit name value declare_type "" 0
    return String.intercalate "\n" lines
  else do
    let valStr :=
      match value with
      | .str s => "\"" ++ escape_dm_string s ++ "\""
      | v => formatScalarValue v
    let var ← escape_dm_variable name
    return (if declare_type then dm_type ++ " " ++ var ++ " = " ++ valStr ++ ";"
            else var ++ " = " ++ valStr ++ ";")

/-! ## Non-printable-character codec
(`__exec_dmscript_escape_non_ascii` and `DMScriptWrapper.unescapeNonAscii`)

Dm-script strings are byte strings (`List Nat`, entries `< 256`); the
dm-script side escapes every byte above 126 into a `{{unc<code>}}` token,
and the Python side decodes maximal runs of such tokens through the
default legacy encoding `"Windows 1252"`. -/

/-- The token text `"{{unc" + u + "}}"` built by the dm-script escape
routine for the byte value `u`. -/
def tokenChars (u : Nat) : List Char :=
  '{' :: '{' :: 'u' :: 'n' :: 'c' :: (decDigits u ++ ['}', '}'])

/-- Embeds one step of `__exec_dmscript_escape_non_ascii`: a byte above
126 becomes its token, anything else stays itself. -/
def escapeByte (u : Nat) : List Char :=
  if 126 < u then tokenChars u else [Char.ofNat u]

/-- Embeds `__exec_dmscript_escape_non_ascii` on a dm-script byte string.
(The source splices each token into the string in place and skips over
it — `i += escape.len() - 1` — which, as the token text contains no byte
above 126, is exactly this map-and-concatenate.) -/
def escapeNonAscii (s : List Nat) : List Char := (s.map escapeByte).flatten

/-- ASCII decimal digit test (the class `[\d]` of the token pattern; the
token texts produced by the dm-script side contain ASCII digits only, and
for Latin-1 inputs CPython's `\d` matches exactly these). -/
def isDigitChar (c : Char) : Bool := 48 ≤ c.toNat && c.toNat ≤ 57

/-- Embeds one match attempt of the compiled pattern
`\{\{unc([\d]+)\}\}` at the head of the input: the literal prefix, one or
more digits (greedy — no shorter munch can succeed, since the character
after the digits must be `}`), and the literal suffix.  Returns the
matched text, the numeric value of group 1, and the rest. -/
def matchToken (s : List Char) : Option (List Char × Nat × List Char) :=
  if ['{', '{', 'u', 'n', 'c'].isPrefixOf s then
    if ((s.drop 5).takeWhile isDigitChar).isEmpty then Option.none
    else
      if ['}', '}'].isPrefixOf
          ((s.drop 5).drop ((s.drop 5).takeWhile isDigitChar).length) then
        Option.some
          ('{' :: '{' :: 'u' :: 'n' :: 'c'
             :: ((s.drop 5).takeWhile isDigitChar ++ ['}', '}']),
           digitsToNat ((s.drop 5).takeWhile isDigitChar),
           ((s.drop 5).drop ((s.drop 5).takeWhile isDigitChar).length).drop 2)
      else Option.none
  else Option.none

/-- Greedy match of `(?:\{\{unc([\d]+)\}\})+` at the head of the input:
as many consecutive tokens as possible (fuel: each token consumes at
least eight characters, so the input length suffices). -/
def matchRunAux : Nat → List Char → Option (List Char × List Nat × List Char)
  | 0, _ => Option.none
  | fuel + 1, s =>
    match matchToken s with
    | Option.none => Option.none
    | Option.some (txt, c, rest) =>
      match matchRunAux fuel rest with
      | Option.some (txt2, cs, rest2) => Option.some (txt ++ txt2, c :: cs, rest2)
      | Option.none => Option.some (txt, [c], rest)

/-- Embeds `_unescape_chars_reg.finditer(escaped)`: the maximal token
runs, scanning left to right, each run reported with its matched text and
the list of its group-1 values. -/
def tokenRunsAux : Nat → List Char → List (List Char × List Nat)
  | 0, _ => []
  | _ + 1, [] => []
  | fuel + 1, c :: rest =>
    match matchRunAux (c :: rest).length (c :: rest) with
    | Option.some (txt, cs, r) => (txt, cs) :: tokenRunsAux fuel r
    | Option.none => tokenRunsAux fuel rest

/-- Token runs of a character list (fuel: the length suffices, every step
consumes at least one character). -/
def tokenRuns (s : List Char) : List (List Char × List Nat) :=
  tokenRunsAux s.length s

/-- The `"Windows 1252"` byte-to-code-point table (Python codec
`cp1252`): ASCII and the upper half map to themselves, the `0x80–0x9F`
range maps through the Windows-1252 graphics, and the five undefined
bytes (129, 141, 143, 144, 157) have no decoding. -/
def cp1252Char (b : Nat) : Option Nat :=
  if b < 128 then Option.some b
  else if 160 ≤ b ∧ b < 256 then Option.some b
  else
    match b with
    | 128 => Option.some 0x20AC
    | 130 => Option.some 0x201A
    | 131 => Option.some 0x0192
    | 132 => Option.some 0x201E
    | 133 => Option.some 0x2026
    | 134 => Option.some 0x2020
    | 135 => Option.some 0x2021
    | 136 => Option.some 0x02C6
    | 137 => Option.some 0x2030
    | 138 => Option.some 0x0160
    | 139 => Option.some 0x2039
    | 140 => Option.some 0x0152
    | 142 => Option.some 0x017D
    | 145 => Option.some 0x2018
    | 146 => Option.some 0x2019
    | 147 => Option.some 0x201C
    | 148 => Option.some 0x201D
    | 149 => Option.some 0x2022
    | 150 => Option.some 0x2013
    | 151 => Option.some 0x2014
    | 152 => Option.some 0x02DC
    | 153 => Option.some 0x2122
    | 154 => Option.some 0x0161
    | 155 => Option.some 0x203A
    | 156 => Option.some 0x0153
    | 158 => Option.some 0x017E
    | 159 => Option.some 0x0178
    | _ => Option.none

/-- Embeds `bytes(codes).decode("Windows 1252")`: `none` both when a code
exceeds a byte (`bytes()` raises `ValueError`) and when a byte is
undefined in cp1252 (`UnicodeDecodeError`); otherwise the code-point
rendering of the bytes, one character per byte. -/
def decodeCp1252 : List Nat → Option (List Char)
  | [] => Option.some []
  | b :: rest =>
    match cp1252Char b, decodeCp1252 rest with
    | Option.some v, Option.some m => Option.some (Char.ofNat v :: m)
    | _, _ => Option.none

/-- Embeds `str.replace(old, new, 1)`: replace the first occurrence of
`old` (never empty here — token runs have at least eight characters). -/
def replaceFirst : List Char → List Char → List Char → List Char
  | [], _, _ => []
  | c :: rest, old, new =>
    if old.isPrefixOf (c :: rest) then new ++ (c :: rest).drop old.length
    else c :: replaceFirst rest old new

/-- Embeds `DMScriptWrapper.unescapeNonAscii(escaped)` with the default
encoding: iterate the maximal token runs found in the *original* string,
decode each run's codes as one byte sequence, and replace the first
occurrence of the run's text in the evolving string. -/
def unescapeNonAscii (escaped : List Char) : Option (List Char) :=
  (tokenRuns escaped).foldlM
    (fun acc run => (decodeCp1252 run.2).map fun dec => replaceFirst acc run.1 dec)
    escaped

/-- String view of `unescapeNonAscii` (the Python function works on
`str`). -/
def unescapeNonAsciiStr (s : String) : Option String :=
  (unescapeNonAscii s.data).map String.mk

/-- Shape of a token text: literal prefix, digit group, literal suffix. -/
def tokenShape (ds : List Char) : List Char :=
  '{' :: '{' :: 'u' :: 'n' :: 'c' :: (ds ++ ['}', '}'])

/-- Byte-level predicate for the escape threshold of
`__exec_dmscript_escape_non_ascii` (`u > 126` escapes). -/
def isAsciiByte (u : Nat) : Bool := decide (u ≤ 126)

/-! ## Read-back of synchronized variables
(`DMScriptWrapper._loadVariablesFromDMScript` and
`_getParsedValueFromPersistentTags`)

The DigitalMicrograph persistent tag group is modelled as an association
list from tag paths to stored values; reading a tag with a `GetTagAs…`
accessor succeeds exactly when the path holds a value of that storage
type and yields the accessor's zero value otherwise (the `(False, 0)` /
`(False, "")` convention of the DM API).  Python's mutable `value_ref`
alias into the value tree under construction is modelled by a cursor
path from the root. -/

/-- Values stored in the persistent tag group, by storage type.  Float
payloads are the same opaque integer tags as in `PyValue.float`. -/
inductive TagVal where
  | long (n : Int)
  | float (payload : Int)
  | bool (b : Bool)
  | str (s : String)
  deriving DecidableEq, Repr

/-- Reading a raw tag from the persistent tag group. -/
def tagLookup (store : List (String × TagVal)) (path : String) : Option TagVal :=
  dictLookup store path

/-- Embeds `DM.GetPersistentTagGroup().GetTagAsString(path)`. -/
def getTagAsString (store : List (String × TagVal)) (path : String) :
    Bool × String :=
  match tagLookup store path with
  | Option.some (TagVal.str s) => (true, s)
  | _ => (false, "")

/-- Embeds `DM.GetPersistentTagGroup().GetTagAsLong(path)`. -/
def getTagAsLong (store : List (String × TagVal)) (path : String) :
    Bool × Int :=
  match tagLookup store path with
  | Option.some (TagVal.long n) => (true, n)
  | _ => (false, 0)

/-- Embeds `DM.GetPersistentTagGroup().GetTagAsFloat(path)`. -/
def getTagAsFloat (store : List (String × TagVal)) (path : String) :
    Bool × Int :=
  match tagLookup store path with
  | Option.some (TagVal.float x) => (true, x)
  | _ => (false, 0)

/-- Embeds `DM.GetPersistentTagGroup().GetTagAsBoolean(path)`. -/
def getTagAsBoolean (store : List (String × TagVal)) (path : String) :
    Bool × Bool :=
  match tagLookup store path with
  | Option.some (TagVal.bool b) => (true, b)
  | _ => (false, false)

/-- Embeds `DMScriptWrapper._getParsedValueFromPersistentTags(path,
var_type)`: dispatch on `get_dm_type(var_type, for_taggroup=True)`,
raising the `LookupError` of `get_dm_type` for unknown types and
`ValueError` for supported types without a scalar tag accessor; string
values are passed through `unescapeNonAscii` (whose decode step can
raise `UnicodeDecodeError`). -/
def getParsedValueFromPersistentTags (store : List (String × TagVal))
    (path : String) (var_type : TypeExpr) : Except PyExn (Bool × PyValue) :=
  match get_dm_type var_type true with
  | Except.error e => Except.error e
  | Except.ok dm_type =>
    if dm_type = "Long" then
      Except.ok ((getTagAsLong store path).1,
        PyValue.int (getTagAsLong store path).2)
    else if dm_type = "Float" then
      Except.ok ((getTagAsFloat store path).1,
        PyValue.float (getTagAsFloat store path).2)
    else if dm_type = "Boolean" then
      Except.ok ((getTagAsBoolean store path).1,
        PyValue.bool (getTagAsBoolean store path).2)
    else if dm_type = "String" then
      match unescapeNonAsciiStr (getTagAsString store path).2 with
      | Option.some v => Except.ok ((getTagAsString store path).1, PyValue.str v)
      | Option.none => Except.error PyExn.unicodeDecodeError
    else Except.error PyExn.valueError

/-- One step of the mutable-alias path `value_ref`: a dictionary key or a
list index. -/
inductive PathKey where
  | idx (n : Nat)
  | key (s : String)
  deriving DecidableEq, Repr

/-- Dictionary write `d[k] = v`: replace the first entry with that key in
place, append a fresh key at the end (Python insertion order). -/
def dictSet (d : List (String × α)) (k : String) (v : α) : List (String × α) :=
  match d with
  | [] => [(k, v)]
  | e :: rest => if e.1 == k then (k, v) :: rest else e :: dictSet rest k v

/-- Reading the sub-value the cursor path points at (`value_ref`, or
`value_ref[key]` via an extended path). -/
def treeGet : List PathKey → PyValue → Option PyValue
  | [], v => Option.some v
  | PathKey.key k :: rest, PyValue.dict xs =>
    match dictLookup xs k with
    | Option.some v => treeGet rest v
    | Option.none => Option.none
  | PathKey.idx n :: rest, PyValue.list xs =>
    match xs.get? n with
    | Option.some v => treeGet rest v
    | Option.none => Option.none
  | _ :: _, _ => Option.none

/-- Assignment through the cursor path (`value_ref[key] = v`): every step
but the last must exist; the final dictionary key may be fresh (Python
dict assignment inserts), while a fresh list index would be an
`IndexError`. -/
def treeSet : List PathKey → PyValue → PyValue → Option PyValue
  | [], _, v => Option.some v
  | PathKey.key k :: rest, PyValue.dict xs, v =>
    match dictLookup xs k with
    | Option.some cur =>
      (treeSet rest cur v).map fun cur' => PyValue.dict (dictSet xs k cur')
    | Option.none =>
      match rest with
      | [] => Option.some (PyValue.dict (dictSet xs k v))
      | _ :: _ => Option.none
  | PathKey.idx n :: rest, PyValue.list xs, v =>
    match xs.get? n with
    | Option.some cur =>
      (treeSet rest cur v).map fun cur' => PyValue.list (xs.set n cur')
    | Option.none => Option.none
  | _ :: _, _, _ => Option.none

/-- In-place update of the value the cursor path points at (used for
`value_ref.append(None)`). -/
def treeModify : List PathKey → PyValue → (PyValue → Option PyValue) →
    Option PyValue
  | [], v, f => f v
  | PathKey.key k :: rest, PyValue.dict xs, f =>
    match dictLookup xs k with
    | Option.some cur =>
      (treeModify rest cur f).map fun cur' => PyValue.dict (dictSet xs k cur')
    | Option.none => Option.none
  | PathKey.idx n :: rest, PyValue.list xs, f =>
    match xs.get? n with
    | Option.some cur =>
      (treeModify rest cur f).map fun cur' => PyValue.list (xs.set n cur')
    | Option.none => Option.none
  | _ :: _, _, _ => Option.none

/-- Embeds `while key >= len(value_ref): value_ref.append(None)`. -/
def listPad (xs : List PyValue) (key : Nat) : List PyValue :=
  xs ++ List.replicate (key + 1 - xs.length) PyValue.none

/-- Embeds `int(path)` on the decimal digit runs produced as dm-script
list indices (other CPython `int()` input forms — signs, whitespace,
underscores — never occur in these paths and are outside the modelled
domain); a non-digit-run raises `ValueError` as `int()` does. -/
def pyInt (s : String) : Except PyExn Nat :=
  if s.data ≠ [] ∧ s.data.all isDigitChar then Except.ok (digitsToNat s.data)
  else Except.error PyExn.valueError

/-- Embeds `tg_keys.split(";")` (plain `str.split` with separator). -/
def splitSemis : List Char → List Char → List String
  | acc, [] => [String.mk acc.reverse]
  | acc, c :: rest =>
    if c = ';' then String.mk acc.reverse :: splitSemis [] rest
    else splitSemis (c :: acc) rest

/-- Embeds `re.compile("(?<!/)/(?!/)").split(tg_key)`: split at every
slash that is neither preceded nor followed by another slash. -/
def slashSplitAux : Option Char → List Char → List Char → List String
  | _, acc, [] => [String.mk acc.reverse]
  | prev, acc, c :: rest =>
    if c = '/' ∧ prev ≠ Option.some '/' ∧ rest.head? ≠ Option.some '/' then
      String.mk acc.reverse :: slashSplitAux (Option.some c) [] rest
    else slashSplitAux (Option.some c) (c :: acc) rest

/-- Split of a whole string by the single-slash pattern. -/
def slashSplit (s : String) : List String := slashSplitAux Option.none [] s.data

/-- Embeds `"/".join(...)`. -/
def joinSlash : List String → String
  | [] => ""
  | [s] => s
  | s :: rest => s ++ "/" ++ joinSlash rest

/-- Embeds the key-parsing half of the `i >= 1` loop body of
`_loadVariablesFromDMScript` (executed before `cur_type` is
overwritten): for a `TagList` parent parse the segment as an index and
pad the list, for a `TagGroup` parent unescape the segment and insert
`None` for a fresh key, and for any other parent `break`
(`Except.ok Option.none`). -/
def keyStep (cur_type : String) (seg : String) (tree : PyValue)
    (curPath : List PathKey) : Except PyExn (Option (PathKey × PyValue)) :=
  if cur_type = "TagList" then
    match pyInt seg with
    | Except.error e => Except.error e
    | Except.ok n =>
      match treeModify curPath tree (fun v =>
          match v with
          | PyValue.list xs => Option.some (PyValue.list (listPad xs n))
          | _ => Option.none) with
      | Option.some tree₁ => Except.ok (Option.some (PathKey.idx n, tree₁))
      | Option.none => Except.error PyExn.attributeError
  else if cur_type = "TagGroup" then
    match unescapeNonAsciiStr seg with
    | Option.none => Except.error PyExn.unicodeDecodeError
    | Option.some k =>
      match treeGet curPath tree with
      | Option.some (PyValue.dict xs) =>
        if dictContains xs k then Except.ok (Option.some (PathKey.key k, tree))
        else
          match treeSet (curPath ++ [PathKey.key k]) tree PyValue.none with
          | Option.some tree₁ => Except.ok (Option.some (PathKey.key k, tree₁))
          | Option.none => Except.error PyExn.keyError
      | _ => Except.error PyExn.typeError
  else Except.ok Option.none

/-- Result of the type-tag half of the loop body: descend into the key
(container type tag) or stop the path walk (`break`), possibly clearing
the success flag. -/
inductive StepRes where
  | descend (tree : PyValue) (cur_type : String)
  | stop (tree : PyValue) (success : Bool)

/-- Embeds the type-tag half of the `i >= 1` loop body: read the
`{{type}}` tag of the current path (missing tag gives `""`), replace the
value at the key by a fresh dict/list when the tag names a container of
another shape and descend, or parse a scalar value and stop the walk —
clearing the success flag when the scalar read fails, and propagating
the `LookupError` that `_getParsedValueFromPersistentTags` raises for an
unknown (in particular missing, i.e. empty) type tag. -/
def typeStep (store : List (String × TagVal)) (pt : String) (tree : PyValue)
    (curPath : List PathKey) (key : PathKey) (cur_path : String) :
    Except PyExn StepRes :=
  let cur_type := (getTagAsString store (pt ++ ":\x7b\x7btype\x7d\x7d" ++ cur_path)).2
  if cur_type = "TagGroup" then
    match treeGet (curPath ++ [key]) tree with
    | Option.some (PyValue.dict _) => Except.ok (StepRes.descend tree cur_type)
    | Option.some _ =>
      match treeSet (curPath ++ [key]) tree (PyValue.dict []) with
      | Option.some tree₁ => Except.ok (StepRes.descend tree₁ cur_type)
      | Option.none => Except.error PyExn.keyError
    | Option.none => Except.error PyExn.keyError
  else if cur_type = "TagList" then
    match treeGet (curPath ++ [key]) tree with
    | Option.some (PyValue.list _) => Except.ok (StepRes.descend tree cur_type)
    | Option.some _ =>
      match treeSet (curPath ++ [key]) tree (PyValue.list []) with
      | Option.some tree₁ => Except.ok (StepRes.descend tree₁ cur_type)
      | Option.none => Except.error PyExn.keyError
    | Option.none => Except.error PyExn.keyError
  else
    match getParsedValueFromPersistentTags store (pt ++ ":" ++ cur_path)
        (TypeExpr.str cur_type) with
    | Except.error e => Except.error e
    | Except.ok (s, v) =>
      if s then
        match treeSet (curPath ++ [key]) tree v with
        | Option.some tree₁ => Except.ok (StepRes.stop tree₁ true)
        | Option.none => Except.error PyExn.keyError
      else Except.ok (StepRes.stop tree false)

/-- Embeds the `for i, path in enumerate(paths)` loop from `i = 1` on:
`segs` are the remaining path segments, `curPath` the cursor position of
`value_ref`, `cur_type` the type of the value `value_ref` aliases, and
`done` the segments already consumed (needed for the joined
`cur_path`).  Returns the final tree and the success flag. -/
def walkSegs (store : List (String × TagVal)) (pt : String) :
    List String → PyValue → List PathKey → String → List String →
    Except PyExn (PyValue × Bool)
  | [], tree, _, _, _ => Except.ok (tree, true)
  | seg :: rest, tree, curPath, cur_type, done =>
    match keyStep cur_type seg tree curPath with
    | Except.error e => Except.error e
    | Except.ok Option.none => Except.ok (tree, true)
    | Except.ok (Option.some (key, tree₁)) =>
      match typeStep store pt tree₁ curPath key (joinSlash (done ++ [seg])) with
      | Except.error e => Except.error e
      | Except.ok (StepRes.stop tree₂ succ) => Except.ok (tree₂, succ)
      | Except.ok (StepRes.descend tree₂ ct) =>
        walkSegs store pt rest tree₂ (curPath ++ [key]) ct (done ++ [seg])

/-- Embeds the container branch of the per-variable loop of
`_loadVariablesFromDMScript`: read the `{{available-paths}}` manifest
(missing manifest gives success `False` and no further work), split it
into tag keys, and rebuild the container by walking every key's path;
the `i = 0` iteration seeds the root value (`{}` or `[]` when it is
still `None`) and the initial `cur_type`.  The success flag is never
reset to `True`, so it is the conjunction of all walk results. -/
def loadContainerVar (store : List (String × TagVal)) (pt var_name : String)
    (py_type : PyType) : Except PyExn (Bool × PyValue) :=
  match getTagAsString store (pt ++ ":\x7b\x7bavailable-paths\x7d\x7d" ++ var_name) with
  | (success, tg_keys_str) =>
    if success then
      (((splitSemis [] tg_keys_str.data).filter (fun x => x != "")).foldlM
        (fun (st : PyValue × Bool) (tg_key : String) =>
          match (slashSplit tg_key).filter (fun x => x != "") with
          | [] => Except.ok st
          | seg0 :: restSegs =>
            let value0 := match st.1 with
              | PyValue.none =>
                if py_type = PyType.dict then PyValue.dict [] else PyValue.list []
              | v => v
            let ct0 := if py_type = PyType.dict then "TagGroup" else "TagList"
            match walkSegs store pt restSegs value0 [] ct0 [seg0] with
            | Except.error e => Except.error e
            | Except.ok (tree, flag) => Except.ok (tree, st.2 && flag))
        (PyValue.none, true)).map (fun (st : PyValue × Bool) => (st.2, st.1))
    else Except.ok (false, PyValue.none)

/-- Embeds one iteration of the `for var_name, var_type in
self.readvars.items()` loop: container types go through the
manifest-driven rebuild, everything else through the scalar read. -/
def loadVar (store : List (String × TagVal)) (pt var_name : String)
    (var_type : TypeExpr) : Except PyExn (Bool × PyValue) :=
  match get_python_type var_type with
  | Except.error e => Except.error e
  | Except.ok py_type =>
    if py_type = PyType.dict ∨ py_type = PyType.list ∨ py_type = PyType.tuple then
      loadContainerVar store pt var_name py_type
    else
      getParsedValueFromPersistentTags store (pt ++ ":" ++ var_name) var_type

/-- Embeds `DMScriptWrapper._loadVariablesFromDMScript` (pure view): fold
the per-variable read over `readvars`, adding a variable to
`synchronized_vars` exactly when its success flag is `True`; the first
uncaught exception aborts the whole read-back.  (The
`freeAllSyncedVars()` call at the end only mutates the external tag
store and is not modelled.) -/
def loadVariablesFromDMScript (store : List (String × TagVal)) (pt : String)
    (readvars : List (String × TypeExpr)) :
    Except PyExn (List (String × PyValue)) :=
  readvars.foldlM
    (fun synced kv =>
      (loadVar store pt kv.1 kv.2).map fun sv =>
        if sv.1 then dictSet synced kv.1 sv.2 else synced)
    []

/-! ## Execution diagnostics (`DMScriptWrapper.__call__`, error branch) -/

/-- Embeds the character class `\s` of a unicode `str` pattern for the
Latin-1 code points (the ASCII whitespace characters, the information
separators, NEL and NBSP); code points at and above 256 are outside the
modelled domain and rejected. -/
def pySpace (c : Char) : Bool :=
  let n := c.toNat
  n == 9 || n == 10 || n == 11 || n == 12 || n == 13 ||
  n == 28 || n == 29 || n == 30 || n == 31 || n == 32 ||
  n == 133 || n == 160

/-- Embeds `re.match(r"Error in line ([\d]+)\s*\n(.*)", msg)`: the message
must start with the literal prefix, then one or more digits (group 1),
then whitespace whose last newline the greedy `\s*\n` stops at, then
group 2 is the remainder of that line (`.` does not match a newline).
Returns `(line number, group 2)` on a match. -/
def parseDmErrorMessage (msg : String) : Option (Nat × String) :=
  let cs := msg.data
  if ("Error in line ".data).isPrefixOf cs then
    let rest := cs.drop 14
    let ds := rest.takeWhile Char.isDigit
    if ds.isEmpty then Option.none
    else
      let t := rest.dropWhile Char.isDigit
      let w := t.takeWhile pySpace
      match (w.reverse.indexOf? '\n').map (fun j => w.length - 1 - j) with
      | Option.none => Option.none
      | Option.some k =>
        Option.some (digitsToNat ds,
          String.mk ((t.drop (k + 1)).takeWhile (fun c => c != '\n')))
  else Option.none

/-- One entry of `DMScriptWrapper._script_sources` (a `FragmentSpan`):
start line, end line (both inclusive), origin name, origin detail.  Origin
details that are Python function objects are modelled as `none`. -/
structure ScriptSource where
  start : Nat
  stop : Nat
  originName : String
  originDetail : Option String
  deriving DecidableEq, Repr

/-- Embeds the `for script_src in self._script_sources` scan: the first
recorded span whose inclusive `[start, end]` range contains `line`. -/
def findContainingSource (sources : List ScriptSource) (line : Nat) :
    Option ScriptSource :=
  sources.find? fun src => decide (src.start ≤ line) && decide (line ≤ src.stop)

/-- Outcome of the `except RuntimeError` handler of
`DMScriptWrapper.__call__`: either a structured `DMScriptError` is raised
(message, origin name, line in origin, line in complete script), or the
raw exception is re-raised, or — when the message matched but no span
contains the line — the handler falls through and execution proceeds into
`_loadVariablesFromDMScript`. -/
inductive ExecOutcome where
  | enriched (msg : String) (scriptOrigin : String)
      (lineInOrigin : Nat) (lineInComplete : Nat)
  | reraised
  | proceedReadBack
  deriving DecidableEq, Repr

/-- Embeds the `except RuntimeError as e` handler of
`DMScriptWrapper.__call__` applied to the host failure message. -/
def handleExecuteError (sources : List ScriptSource) (emsg : String) :
    ExecOutcome :=
  match parseDmErrorMessage emsg with
  | Option.none => .reraised
  | Option.some (line, m) =>
    match findContainingSource sources line with
    | Option.some src =>
      .enriched m src.originName (line - src.start + 1) line
    | Option.none => .proceedReadBack

/-! ## Script assembly (`getExecDMScriptCode`, `_addCode` and the
separate-thread wrappers) -/

/-- The `code` argument of `_addCode`, which accepts a `str`, a
`list`/`tuple` of `str`, or — erroneously, from the separate-thread loop's
`code.encode("iso-8859-1")` — a `bytes` object. -/
inductive CodePiece where
  | str (s : String)
  | strList (cs : List String)
  | bytes (bs : List Nat)

/-- Embeds `DMScriptWrapper.debug_start_marker`. -/
def debug_start_marker : String := "@execdmscript.ignore.start"

/-- Embeds `DMScriptWrapper.debug_end_marker`. -/
def debug_end_marker : String := "@execdmscript.ignore.end"

/-- Decides whether the first character list occurs as a contiguous
infix of the second. -/
def listIsInfixOf : List Char → List Char → Bool
  | sub, [] => sub.isEmpty
  | sub, c :: rest' => sub.isPrefixOf (c :: rest') || listIsInfixOf sub rest'

/-- Embeds the Python substring test `sub in s`. -/
def strContainsSub (s sub : String) : Bool := listIsInfixOf sub.data s.data

/-- Embeds the debug-marker loop of `_addCode`: once a line containing the
start marker is seen, this and following lines are prefixed with `"// "`
until (and including) a line containing the end marker. -/
def debugMarkLoop : Bool → List String → List String
  | _, [] => []
  | commenting, line :: rest =>
    let c1 := if strContainsSub line debug_start_marker then true else commenting
    let lineOut := if c1 then "// " ++ line else line
    let c2 := if strContainsSub line debug_end_marker then false else c1
    lineOut :: debugMarkLoop c2 rest

/-- Split on `"\n"`, run the debug-marker loop, rejoin. -/
def commentDebugLines (code : String) : String :=
  String.intercalate "\n" (debugMarkLoop false (code.splitOn "\n"))

/-- Count of `"\n"` characters in a string (`str.count`). -/
def countNewlines (s : String) : Nat := s.data.count '\n'

/-- Embeds `DMScriptWrapper._addCode(dmscript, code, origin_name,
origin_detail, startpos, remove_debug_lines)` together with its side
effect of appending to `self._script_sources`.  The state
`(dmscript, sources, startpos)` is passed explicitly.  A `bytes` code
piece is neither a list, a tuple, nor a `str`, so it raises `ValueError`.
(The `list` arithmetic `sum(counts) + len(code) - 1` is only used by the
nonempty header block, where it agrees with the natural-subtraction
form.) -/
def addCode (dmscript : List String) (sources : List ScriptSource)
    (code : CodePiece) (origin_name : String) (origin_detail : Option String)
    (startpos : Nat) (remove_debug_lines : Bool) :
    Except PyExn (List String × List ScriptSource × Nat) := do
  let (code_lines, codeStr) ←
    match code with
    | .strList cs =>
      pure ((cs.map countNewlines).sum + cs.length - 1, String.intercalate "\n" cs)
    | .str c => pure (countNewlines c, c)
    | .bytes _ => Except.error PyExn.valueError
  let codeStr := if remove_debug_lines then commentDebugLines codeStr else codeStr
  return (dmscript ++ [codeStr],
    sources ++ [⟨startpos, startpos + code_lines, origin_name, origin_detail⟩],
    startpos + code_lines + 1)

/-- Embeds `getSeparateThreadStartCode(index)`: cancellation signal,
completion signal, thread class opening its run method. -/
def getSeparateThreadStartCode (creation_time_id : String) (index : Nat) :
    String :=
  String.intercalate "\n"
    [ "object thread_cancel_signal" ++ creation_time_id ++ "_" ++ natRepr index
        ++ " = NewCancelSignal();",
      "object thread_done_signal" ++ creation_time_id ++ "_" ++ natRepr index
        ++ " = NewSignal(0);",
      "class ExecDMScriptThread" ++ creation_time_id ++ "_" ++ natRepr index
        ++ " : Thread\x7b",
      "void RunThread(object self)\x7b" ]

/-- Embeds `getSeparateThreadEndCode(index)`: completion-signal set, class
close, allocate-and-start. -/
def getSeparateThreadEndCode (creation_time_id : String) (index : Nat) :
    String :=
  String.intercalate "\n"
    [ "// inform that the thread is done now",
      "thread_done_signal" ++ creation_time_id ++ "_" ++ natRepr index
        ++ ".setSignal();",
      "\x7d",
      "\x7d",
      "alloc(ExecDMScriptThread" ++ creation_time_id ++ "_" ++ natRepr index
        ++ ").StartThread();" ]

/-- Embeds `str.encode("iso-8859-1")`: the code points must fit in one
byte each, otherwise a `UnicodeEncodeError`-like failure (modelled as
`valueError`) is raised. -/
def encodeIso8859_1 (s : String) : Except PyExn (List Nat) :=
  s.data.mapM fun c =>
    if c.toNat < 256 then pure c.toNat else Except.error PyExn.valueError

/-- Script fragments after `normalizeScripts`: a kind tag plus the path or
the inline text. -/
inductive ScriptKind where
  | file
  | script
  deriving DecidableEq, Repr

/-- Embeds the header comment block of `getExecDMScriptCode`. -/
def headerCommentLines : List String :=
  [ "// This code is created automatically by concatenating files and ",
    "// code fragments.",
    "// ",
    "// This code is generated with the exedmscript module.",
    "//",
    "//" ++ String.join (List.replicate 50 " =") ]

/-- Embeds `getSetVarsDMCode`: one declaration per `setvars` entry after a
comment line; the empty string when `setvars` is not a dict. -/
def getSetVarsDMCode (setvars : Option (List (String × PyValue))) :
    Except PyExn String :=
  match setvars with
  | Option.none => .ok ""
  | Option.some sv => do
    let lines ← sv.mapM fun kv => getDMCodeForVariable kv.1 kv.2 true
    return String.intercalate "\n"
      ("// Setting variables from python values" :: lines)

/-- Assembly state: the fragment list, the recorded spans, and the next
start line. -/
abbrev AsmState := List String × List ScriptSource × Nat

/-- Embeds the `for i, (kind, script) in enumerate(self.scripts)` loop of
`getExecDMScriptCode` (the `__file__` declaration, the source comment,
and the fragment text; file contents are provided by the external
`readFileFn` collaborator). -/
def scriptsLoop (readFileFn : String → String) :
    Nat → Bool → List (ScriptKind × String) → AsmState →
    Except PyExn AsmState
  | _, _, [], st => .ok st
  | i, dm_file_added, (kind, script) :: rest, (dms, srcs, pos) => do
    let (source, dmFile, comment, codeText) :=
      match kind with
      | .file => (script, script, "// File " ++ escape_dm_string script,
          readFileFn script)
      | .script => ("<inline script in parameter " ++ natRepr i ++ ">",
          "<inline>", "// Directly given script", script)
    let fileDecl ← getDMCodeForVariable "__file__" (.str dmFile) (!dm_file_added)
    let (dms, srcs, pos) ← addCode dms srcs (.str fileDecl) "<__file__>"
      Option.none pos true
    let (dms, srcs, pos) ← addCode dms srcs (.str comment) "<comments>"
      Option.none pos true
    let (dms, srcs, pos) ← addCode dms srcs (.str codeText) source
      (Option.some script) pos true
    scriptsLoop readFileFn (i + 1) true rest (dms, srcs, pos)

/-- Embeds the separate-thread loop of `getExecDMScriptCode`: the
thread-start wrapper, the source comment, the body — which the source
converts to `bytes` via `code.encode("iso-8859-1")` before handing it to
`_addCode` — and the thread-end wrapper. -/
def threadsLoop (creation_time_id : String) (readFileFn : String → String) :
    Nat → List (ScriptKind × String) → AsmState → Except PyExn AsmState
  | _, [], st => .ok st
  | i, (kind, script) :: rest, (dms, srcs, pos) => do
    let (dms, srcs, pos) ← addCode dms srcs
      (.str (getSeparateThreadStartCode creation_time_id i))
      "<prepare separate thread>" Option.none pos true
    let (source, comment, codeText) :=
      match kind with
      | .file => (script, "// File " ++ escape_dm_string script,
          readFileFn script)
      | .script => ("<separate_thread parameter " ++ natRepr i ++ ">",
          "// Directly given script", script)
    let codeBytes ← encodeIso8859_1 codeText
    let (dms, srcs, pos) ← addCode dms srcs (.str comment) "<comments>"
      Option.none pos true
    let (dms, srcs, pos) ← addCode dms srcs (.bytes codeBytes) source
      (Option.some script) pos true
    let (dms, srcs, pos) ← addCode dms srcs
      (.str (getSeparateThreadEndCode creation_time_id i))
      "<prepare separate thread>" Option.none pos true
    threadsLoop creation_time_id readFileFn (i + 1) rest (dms, srcs, pos)

/-- Embeds `getExecDMScriptCode` from the start through the
separate-thread section: header comments, `setvars` declarations, the
script fragments, and the extra concurrent bodies.  The remaining steps
(the library-function block and the `readvars` synchronization code) are
appended after this point in the source and cannot un-fail a failed
state, so this prefix suffices for the assembly-failure claims. -/
def assembleThroughThreads (creation_time_id : String)
    (scripts : List (ScriptKind × String)) (readFileFn : String → String)
    (setvars : Option (List (String × PyValue)))
    (separate_thread : Option (List (ScriptKind × String))) :
    Except PyExn AsmState := do
  let (dms, srcs, pos) ← addCode [] [] (.strList headerCommentLines)
    "<comments>" Option.none 1 true
  let setvarsCode ← getSetVarsDMCode setvars
  let (dms, srcs, pos) ← addCode dms srcs (.str setvarsCode) "<setvars>"
    Option.none pos true
  let st ← scriptsLoop readFileFn 0 false scripts (dms, srcs, pos)
  match separate_thread with
  | Option.none => .ok st
  | Option.some bodies => threadsLoop creation_time_id readFileFn 0 bodies st

theorem stringMk_eq_empty_iff (l : List Char) : String.mk l = "" ↔ l = [] := by
  constructor
  · intro h
    have h2 := congrArg String.data h
    simpa using h2
  · rintro rfl
    rfl

theorem dictContains_iff_find?_isSome (d : List (String × α)) (k : String) :
    dictContains d k = true ↔ (d.find? fun e => e.1 == k).isSome := by
  simp [dictContains, List.any_eq_true, List.find?_isSome]

theorem dictContains_eq_false_find? (d : List (String × α)) (k : String)
    (h : dictContains d k = false) : (d.find? fun e => e.1 == k) = Option.none := by
  cases hf : d.find? fun e => e.1 == k with
  | none => rfl
  | some e =>
    exfalso
    have : dictContains d k = true := by
      rw [dictContains_iff_find?_isSome, hf]
      rfl
    rw [this] at h
    cases h

theorem dictLookup_append_of_contains (d₁ d₂ : List (String × α)) (k : String)
    (h : dictContains d₁ k = true) :
    dictLookup (d₁ ++ d₂) k = dictLookup d₁ k := by
  rw [dictContains_iff_find?_isSome] at h
  cases hf : d₁.find? fun e => e.1 == k with
  | none => rw [hf] at h; cases h
  | some e =>
    simp [dictLookup, List.find?_append, hf]

theorem dictContains_append (d₁ d₂ : List (String × α)) (k : String) :
    dictContains (d₁ ++ d₂) k = (dictContains d₁ k || dictContains d₂ k) := by
  simp [dictContains, List.any_append]

theorem readvarsMergeFold_lookup_preserved (sv : List (String × PyValue)) :
    ∀ rv k, dictContains rv k = true →
      dictLookup (readvarsMergeFold rv sv) k = dictLookup rv k := by
  induction sv with
  | nil => intro rv k _; rfl
  | cons kv rest ih =>
    intro rv k hk
    show dictLookup (readvarsMergeFold (readvarsMergeStep rv kv) rest) k = _
    unfold readvarsMergeStep
    by_cases hc : dictContains rv kv.1 = true
    · rw [if_pos hc]
      exact ih rv k hk
    · rw [if_neg hc]
      rw [ih _ k (by rw [dictContains_append, hk]; rfl)]
      exact dictLookup_append_of_contains _ _ _ hk

theorem readvarsMergeFold_lookup_added (sv : List (String × PyValue)) :
    ∀ rv k v, dictContains rv k = false →
      (sv.find? fun e => e.1 == k).map Prod.snd = Option.some v →
      dictLookup (readvarsMergeFold rv sv) k
        = Option.some (TypeExpr.ty (typeOf v)) := by
  induction sv with
  | nil => intro rv k v _ hfind; cases hfind
  | cons kv rest ih =>
    intro rv k v hk hfind
    show dictLookup (readvarsMergeFold (readvarsMergeStep rv kv) rest) k = _
    by_cases hkey : (kv.1 == k) = true
    · have hkeq : kv.1 = k := eq_of_beq hkey
      have hv : kv.2 = v := by
        simp only [List.find?_cons, hkey, Option.map_some'] at hfind
        exact Option.some.inj hfind
      have hcrv : dictContains rv kv.1 = false := hkeq ▸ hk
      have hstep : readvarsMergeStep rv kv = rv ++ [(kv.1, .ty (typeOf kv.2))] := by
        simp [readvarsMergeStep, hcrv]
      rw [hstep]
      rw [readvarsMergeFold_lookup_preserved rest _ k
        (by rw [dictContains_append, hk, hkeq]; simp [dictContains])]
      rw [dictLookup]
      rw [List.find?_append, dictContains_eq_false_find? rv k hk]
      simp [hkeq, hv]
    · have hkne : (kv.1 == k) = false := by
        cases h2 : (kv.1 == k) with
        | true => exact absurd h2 hkey
        | false => rfl
      have hfind' : (rest.find? fun e => e.1 == k).map Prod.snd = Option.some v := by
        simp only [List.find?_cons, hkne] at hfind
        exact hfind
      by_cases hc : dictContains rv kv.1 = true
      · have hstep : readvarsMergeStep rv kv = rv := by
          simp [readvarsMergeStep, hc]
        rw [hstep]
        exact ih rv k v hk hfind'
      · have hc' : dictContains rv kv.1 = false := by
          cases h2 : dictContains rv kv.1 with
          | true => exact absurd h2 hc
          | false => rfl
        have hstep : readvarsMergeStep rv kv = rv ++ [(kv.1, .ty (typeOf kv.2))] := by
          simp [readvarsMergeStep, hc']
        rw [hstep]
        refine ih _ k v ?_ hfind'
        rw [dictContains_append, hk]
        simp [dictContains, hkne]

theorem Heap.getDict_setDict (h : Heap) (a : Nat) (d : RvDict)
    (ha : a < h.dicts.length) : (h.setDict a d).getDict a = d := by
  simp [Heap.getDict, Heap.setDict, List.getElem?_set_self ha]

theorem Heap.setDict_length (h : Heap) (a : Nat) (d : RvDict) :
    (h.setDict a d).dicts.length = h.dicts.length := by
  simp [Heap.setDict]

theorem initReadvarsFold_getDict (sv : List (String × PyValue)) :
    ∀ h addr, addr < h.dicts.length → (sv.map Prod.fst).Nodup →
      (sv.foldl (initReadvarsStep addr) h).getDict addr
        = h.getDict addr
          ++ (sv.filter fun kv => ¬ dictContains (h.getDict addr) kv.1).map
               (fun kv => (kv.1, TypeExpr.ty (typeOf kv.2))) := by
  induction sv with
  | nil => intro h addr _ _; simp
  | cons kv rest ih =>
    intro h addr ha hnd
    have hnd0 : (kv.1 :: rest.map Prod.fst).Nodup := by simpa using hnd
    have hnd1 : ((rest.map Prod.fst).Nodup) := hnd0.of_cons
    have hknotin : kv.1 ∉ rest.map Prod.fst := (List.nodup_cons.mp hnd0).1
    show ((rest.foldl (initReadvarsStep addr) (initReadvarsStep addr h kv))).getDict addr = _
    by_cases hc : dictContains (h.getDict addr) kv.1 = true
    · have hstep : initReadvarsStep addr h kv = h := by
        simp [initReadvarsStep, hc]
      rw [hstep, ih h addr ha hnd1]
      congr 1
      rw [List.filter_cons]
      simp [hc]
    · have hc' : dictContains (h.getDict addr) kv.1 = false := by
        cases h2 : dictContains (h.getDict addr) kv.1 with
        | true => exact absurd h2 hc
        | false => rfl
      set d' := h.getDict addr ++ [(kv.1, TypeExpr.ty (typeOf kv.2))] with hd'
      have hstep : initReadvarsStep addr h kv = h.setDict addr d' := by
        simp [initReadvarsStep, hc', hd']
      have hlen : addr < (h.setDict addr d').dicts.length := by
        rw [Heap.setDict_length]; exact ha
      have hfilter :
          (rest.filter fun kv' => ¬ dictContains d' kv'.1)
            = rest.filter fun kv' => ¬ dictContains (h.getDict addr) kv'.1 := by
        apply List.filter_congr
        intro kv' hkv'
        have hne : kv'.1 ≠ kv.1 := by
          intro he
          exact hknotin (he ▸ List.mem_map_of_mem Prod.fst hkv')
        rw [hd', dictContains_append]
        have hl : dictContains [(kv.1, TypeExpr.ty (typeOf kv.2))] kv'.1 = false := by
          simp only [dictContains, List.any_cons, List.any_nil, Bool.or_false]
          cases hb : (kv.1 == kv'.1) with
          | true => exact absurd (eq_of_beq hb).symm hne
          | false => rfl
        rw [hl, Bool.or_false]
      rw [hstep, ih _ addr hlen hnd1]
      rw [Heap.getDict_setDict h addr d' ha]
      rw [hfilter, List.filter_cons]
      simp [hc', hd', List.append_assoc]

/-! ### Decimal digit lemmas -/

theorem decDigitsAux_all_lt10 :
    ∀ fuel n, ∀ d ∈ decDigitsAux fuel n, d < 10 := by
  intro fuel
  induction fuel with
  | zero => intro n d hd; cases hd
  | succ f ih =>
    intro n d hd
    cases n with
    | zero => cases hd
    | succ m =>
      have he : decDigitsAux (f + 1) (m + 1)
          = (m + 1) % 10 :: decDigitsAux f ((m + 1) / 10) := rfl
      rw [he] at hd
      rcases List.mem_cons.mp hd with h | h
      · rw [h]; exact Nat.mod_lt _ (by omega)
      · exact ih _ d h

theorem decDigitsAux_foldr :
    ∀ fuel n, n ≤ fuel →
      (decDigitsAux fuel n).foldr (fun d acc => 10 * acc + d) 0 = n := by
  intro fuel
  induction fuel with
  | zero => intro n h; interval_cases n; rfl
  | succ f ih =>
    intro n h
    cases n with
    | zero => rfl
    | succ m =>
      have he : decDigitsAux (f + 1) (m + 1)
          = (m + 1) % 10 :: decDigitsAux f ((m + 1) / 10) := rfl
      rw [he, List.foldr_cons, ih ((m + 1) / 10) (by omega)]
      omega

theorem char_toNat_digit (d : Nat) (h : d < 10) :
    (Char.ofNat (48 + d)).toNat = 48 + d := by
  interval_cases d <;> rfl

theorem digitsToNat_decDigits (n : Nat) : digitsToNat (decDigits n) = n := by
  by_cases h0 : n = 0
  · subst h0; rfl
  · unfold decDigits digitsToNat
    rw [if_neg h0, List.foldl_map, List.foldl_reverse]
    have hfold :
        ∀ l : List Nat, (∀ d ∈ l, d < 10) →
          l.foldr (fun x acc => 10 * acc + ((Char.ofNat (48 + x)).toNat - 48)) 0
            = l.foldr (fun d acc => 10 * acc + d) 0 := by
      intro l hl
      induction l with
      | nil => rfl
      | cons d rest ih =>
        rw [List.foldr_cons, List.foldr_cons,
          ih (fun x hx => hl x (List.mem_cons_of_mem _ hx)),
          char_toNat_digit d (hl d (List.mem_cons_self _ _))]
        omega
    rw [hfold _ (decDigitsAux_all_lt10 n n)]
    exact decDigitsAux_foldr n n le_rfl

theorem decDigits_ne_nil (n : Nat) : decDigits n ≠ [] := by
  unfold decDigits
  by_cases h0 : n = 0
  · rw [if_pos h0]; exact fun h => nomatch h
  · rw [if_neg h0]
    intro h
    have h2 : decDigitsAux n n = [] := by
      have := congrArg List.length h
      simp at this
      exact List.eq_nil_of_length_eq_zero (by simpa using this)
    cases n with
    | zero => exact h0 rfl
    | succ m =>
      have he : decDigitsAux (m + 1) (m + 1)
          = (m + 1) % 10 :: decDigitsAux m ((m + 1) / 10) := rfl
      rw [he] at h2
      cases h2

theorem decDigits_toNat_mem (n : Nat) :
    ∀ c ∈ decDigits n, 48 ≤ c.toNat ∧ c.toNat ≤ 57 := by
  intro c hc
  unfold decDigits at hc
  by_cases h0 : n = 0
  · rw [if_pos h0] at hc
    rcases List.mem_singleton.mp hc with rfl
    constructor <;> decide
  · rw [if_neg h0] at hc
    rcases List.mem_map.mp hc with ⟨d, hd, rfl⟩
    have hlt : d < 10 := decDigitsAux_all_lt10 n n d (List.mem_reverse.mp hd)
    rw [char_toNat_digit d hlt]
    omega

theorem decDigits_isDigitChar (n : Nat) :
    ∀ c ∈ decDigits n, isDigitChar c = true := by
  intro c hc
  have h := decDigits_toNat_mem n c hc
  simp [isDigitChar]
  omega

/-! ### Token structure lemmas -/

theorem isDigitChar_toNat_bounds (c : Char) (h : isDigitChar c = true) :
    48 ≤ c.toNat ∧ c.toNat ≤ 57 := by
  simp [isDigitChar] at h
  exact h

theorem tokenChars_all_le126 (u : Nat) :
    ∀ c ∈ tokenChars u, c.toNat ≤ 126 := by
  intro c hc
  simp [tokenChars] at hc
  rcases hc with rfl | rfl | rfl | rfl | hc | rfl
  · decide
  · decide
  · decide
  · decide
  · exact (decDigits_toNat_mem u c hc).2.trans (by omega)
  · decide

theorem tokenChars_eq_tokenShape (u : Nat) :
    tokenChars u = tokenShape (decDigits u) := rfl

theorem eds_takeWhile_append_all (p : Char → Bool) :
    ∀ (xs ys : List Char), (∀ c ∈ xs, p c = true) →
      (xs ++ ys).takeWhile p = xs ++ ys.takeWhile p := by
  intro xs
  induction xs with
  | nil => intro ys _; rfl
  | cons x xs ih =>
    intro ys hall
    have hx := hall x (List.mem_cons_self _ _)
    simp [List.takeWhile_cons, hx,
      ih ys fun c hc => hall c (List.mem_cons_of_mem _ hc)]

theorem matchToken_tokenShape (ds : List Char) (h1 : ds ≠ [])
    (h2 : ∀ c ∈ ds, isDigitChar c = true) (w : List Char) :
    matchToken (tokenShape ds ++ w)
      = Option.some (tokenShape ds, digitsToNat ds, w) := by
  have hpre : (['{', '{', 'u', 'n', 'c'].isPrefixOf (tokenShape ds ++ w)) = true := by
    simp [tokenShape, List.isPrefixOf]
  have hdrop : (tokenShape ds ++ w).drop 5 = ds ++ ('}' :: '}' :: w) := by
    simp [tokenShape]
  have htw : (ds ++ ('}' :: '}' :: w)).takeWhile isDigitChar = ds := by
    rw [eds_takeWhile_append_all isDigitChar ds _ h2]
    have hbr : isDigitChar '}' = false := by decide
    simp [List.takeWhile_cons, hbr]
  unfold matchToken
  rw [if_pos hpre, hdrop, htw]
  rw [if_neg (by simpa [List.isEmpty_iff] using h1)]
  rw [List.drop_left]
  rw [if_pos (by simp [List.isPrefixOf])]
  simp [tokenShape]

theorem matchToken_eq_some (s txt : List Char) (c : Nat) (r : List Char)
    (h : matchToken s = Option.some (txt, c, r)) :
    ∃ ds, ds ≠ [] ∧ (∀ ch ∈ ds, isDigitChar ch = true) ∧
      txt = tokenShape ds ∧ c = digitsToNat ds ∧ s = txt ++ r := by
  unfold matchToken at h
  by_cases hpre : (['{', '{', 'u', 'n', 'c'].isPrefixOf s) = true
  · rw [if_pos hpre] at h
    by_cases hemp : ((s.drop 5).takeWhile isDigitChar).isEmpty = true
    · rw [if_pos hemp] at h; cases h
    · rw [if_neg hemp] at h
      by_cases hsuf : (['}', '}'].isPrefixOf
          ((s.drop 5).drop ((s.drop 5).takeWhile isDigitChar).length)) = true
      · rw [if_pos hsuf] at h
        injection h with h
        injection h with htxt h
        injection h with hc hr
        refine ⟨(s.drop 5).takeWhile isDigitChar, ?_, ?_, htxt.symm, hc.symm, ?_⟩
        · simpa [List.isEmpty_iff] using hemp
        · intro ch hch
          exact List.mem_takeWhile_imp hch
        · have hpre' : ['{', '{', 'u', 'n', 'c'] <+: s :=
            List.isPrefixOf_iff_prefix.mp hpre
          obtain ⟨s5, hs5⟩ := hpre'
          have hts : s.drop 5 = s5 := by
            rw [← hs5]
            simp
          have htds : s.drop 5 = (s.drop 5).takeWhile isDigitChar
              ++ (s.drop 5).drop ((s.drop 5).takeWhile isDigitChar).length := by
            conv_lhs => rw [← List.take_append_drop
              ((s.drop 5).takeWhile isDigitChar).length (s.drop 5)]
            congr 1
            exact (List.prefix_iff_eq_take.mp (List.takeWhile_prefix _)).symm
          have hdrop2 : (s.drop 5).drop ((s.drop 5).takeWhile isDigitChar).length
              = '}' :: '}' :: r := by
            have hsuf' : ['}', '}'] <+:
                (s.drop 5).drop ((s.drop 5).takeWhile isDigitChar).length :=
              List.isPrefixOf_iff_prefix.mp hsuf
            obtain ⟨r2, hr2⟩ := hsuf'
            have hrr : r2 = r := by
              rw [← hr, ← hr2]
              rfl
            rw [← hr2, hrr]
            rfl
          have hsplit : s
              = ['{', '{', 'u', 'n', 'c']
                ++ ((s.drop 5).takeWhile isDigitChar ++ ('}' :: '}' :: r)) := by
            conv_lhs => rw [← hs5, ← hts, htds, hdrop2]
          have hrhs : txt ++ r
              = ['{', '{', 'u', 'n', 'c']
                ++ ((s.drop 5).takeWhile isDigitChar ++ ('}' :: '}' :: r)) := by
            rw [← htxt]
            simp
          rw [hrhs]
          exact hsplit
      · rw [if_neg hsuf] at h; cases h
  · rw [if_neg hpre] at h; cases h

theorem tokenShape_all_le126 (ds : List Char)
    (h : ∀ c ∈ ds, isDigitChar c = true) :
    ∀ c ∈ tokenShape ds, c.toNat ≤ 126 := by
  intro c hc
  simp [tokenShape] at hc
  rcases hc with rfl | rfl | rfl | rfl | hc | rfl
  · decide
  · decide
  · decide
  · decide
  · exact ((isDigitChar_toNat_bounds c (h c hc)).2).trans (by omega)
  · decide

theorem tokenShape_length (ds : List Char) :
    (tokenShape ds).length = 7 + ds.length := by
  simp [tokenShape]
  omega

theorem tokenShape_tail_no_brace (ds : List Char)
    (h : ∀ c ∈ ds, isDigitChar c = true) :
    ∀ c ∈ ('u' :: 'n' :: 'c' :: (ds ++ ['}', '}'])), c ≠ '{' := by
  intro c hc
  simp at hc
  rcases hc with rfl | rfl | rfl | hc | rfl
  · decide
  · decide
  · decide
  · have := (isDigitChar_toNat_bounds c (h c hc)).2
    intro he
    rw [he] at this
    exact absurd this (by decide)
  · decide

theorem append_eq_shorter_prefix {α : Type} {a b c d : List α}
    (h : a ++ b = c ++ d) (hl : a.length ≤ c.length) : a <+: c := by
  have ha : a = (c ++ d).take a.length := by
    rw [← h]
    simp
  rw [List.take_append_of_le_length hl] at ha
  rw [ha]
  exact List.take_prefix _ _

theorem append_eq_longer_split {α : Type} {a b c d : List α}
    (h : a ++ b = c ++ d) (hl : c.length < a.length) :
    ∃ z, z ≠ [] ∧ a = c ++ z ∧ z ++ b = d := by
  have hpre : c <+: a := append_eq_shorter_prefix h.symm (le_of_lt hl)
  obtain ⟨z, hz⟩ := hpre
  refine ⟨z, ?_, hz.symm, ?_⟩
  · intro hznil
    rw [hznil, List.append_nil] at hz
    rw [← hz] at hl
    exact lt_irrefl _ hl
  · rw [← hz, List.append_assoc] at h
    exact List.append_cancel_left h

/-- Within a region that decodes from an infix of the token-free source
text, a token match cannot start right before a character above 126: the
match would either lie inside the infix (contradicting token-freeness) or
contain the high character (token texts are pure ASCII). -/
theorem matchToken_none_highbar (schars : List Char)
    (Hs : ∀ t, t <:+ schars → matchToken t = Option.none)
    (w : List Char) (hw : w <:+: schars)
    (δ : Char) (hδ : 126 < δ.toNat) (y : List Char) :
    matchToken (w ++ δ :: y) = Option.none := by
  cases h : matchToken (w ++ δ :: y) with
  | none => rfl
  | some res =>
    exfalso
    obtain ⟨txt, c, r⟩ := res
    obtain ⟨ds, hds1, hds2, htxt, _, hsplit⟩ := matchToken_eq_some _ _ _ _ h
    rcases le_or_lt txt.length w.length with hle | hlt
    · have hpre : txt <+: w := append_eq_shorter_prefix hsplit.symm hle
      obtain ⟨t₀, hwpre, ht₀suf⟩ := List.infix_iff_prefix_suffix.mp hw
      have htxtpre : txt <+: t₀ := hpre.trans hwpre
      obtain ⟨t₁, ht₁⟩ := htxtpre
      have := Hs t₀ ht₀suf
      rw [← ht₁, htxt, matchToken_tokenShape ds hds1 hds2 t₁] at this
      cases this
    · obtain ⟨z, hz, hzeq, hzr⟩ := append_eq_longer_split hsplit.symm hlt
      have hδmem : δ ∈ txt := by
        rcases z with _ | ⟨z0, z'⟩
        · exact absurd rfl hz
        · have hz0 : z0 = δ := by
            rw [List.cons_append] at hzr
            injection hzr
          rw [hzeq, ← hz0]
          exact List.mem_append.mpr (Or.inr (List.mem_cons_self _ _))
      have := tokenShape_all_le126 ds hds2 δ (htxt ▸ hδmem)
      omega

/-- Within a nonempty infix of the token-free source text, a token match
cannot start even when the continuation is empty or is token text (which
begins with two braces): the match would either lie inside the infix or
cross into the continuation, forcing a brace where the token pattern has
none. -/
theorem matchToken_none_infix (schars : List Char)
    (Hs : ∀ t, t <:+ schars → matchToken t = Option.none)
    (w : List Char) (hw : w <:+: schars) (hne : w ≠ [])
    (v : List Char) (hv : v = [] ∨ ∃ v', v = '{' :: '{' :: v') :
    matchToken (w ++ v) = Option.none := by
  cases h : matchToken (w ++ v) with
  | none => rfl
  | some res =>
    exfalso
    obtain ⟨txt, c, r⟩ := res
    obtain ⟨ds, hds1, hds2, htxt, _, hsplit⟩ := matchToken_eq_some _ _ _ _ h
    rcases le_or_lt txt.length w.length with hle | hlt
    · have hpre : txt <+: w := append_eq_shorter_prefix hsplit.symm hle
      obtain ⟨t₀, hwpre, ht₀suf⟩ := List.infix_iff_prefix_suffix.mp hw
      have htxtpre : txt <+: t₀ := hpre.trans hwpre
      obtain ⟨t₁, ht₁⟩ := htxtpre
      have hcontra := Hs t₀ ht₀suf
      rw [← ht₁, htxt, matchToken_tokenShape ds hds1 hds2 t₁] at hcontra
      cases hcontra
    · obtain ⟨z, hz, hzeq, hzr⟩ := append_eq_longer_split hsplit.symm hlt
      rcases hv with rfl | ⟨v', rfl⟩
      · rcases z with _ | ⟨z0, z'⟩
        · exact hz rfl
        · cases hzr
      · rcases z with _ | ⟨z0, z'⟩
        · exact hz rfl
        · rw [List.cons_append] at hzr
          have hz0 : z0 = '{' := ((List.cons.injEq _ _ _ _).mp hzr).1
          rcases w with _ | ⟨a, w1⟩
          · exact hne rfl
          rcases w1 with _ | ⟨b, w2⟩
          · have hsh : tokenShape ds = a :: z0 :: z' := by
              rw [← htxt, hzeq]
              rfl
            unfold tokenShape at hsh
            have hsh2 := ((List.cons.injEq _ _ _ _).mp hsh).2
            have hsh3 := ((List.cons.injEq _ _ _ _).mp hsh2).2
            have hzr' : z' ++ r = '{' :: v' :=
              ((List.cons.injEq _ _ _ _).mp hzr).2
            rw [← hsh3, List.cons_append] at hzr'
            have h4 : 'u' = '{' := ((List.cons.injEq _ _ _ _).mp hzr').1
            exact absurd h4 (by decide)
          · have hsh : tokenShape ds = (a :: b :: w2) ++ (z0 :: z') := by
              rw [← htxt]
              exact hzeq
            unfold tokenShape at hsh
            rw [List.cons_append, List.cons_append] at hsh
            have hsh2 := ((List.cons.injEq _ _ _ _).mp hsh).2
            have hsh3 := ((List.cons.injEq _ _ _ _).mp hsh2).2
            have hmem : z0 ∈ ('u' :: 'n' :: 'c' :: (ds ++ ['}', '}'])) := by
              rw [hsh3]
              exact List.mem_append.mpr (Or.inr (List.mem_cons_self _ _))
            exact tokenShape_tail_no_brace ds hds2 z0 hmem hz0

theorem char_toNat_ofNat_lt (n : Nat) (h : n < 55296) :
    (Char.ofNat n).toNat = n := by
  unfold Char.ofNat
  rw [dif_pos (Or.inl h)]
  simp [Char.ofNatAux, Char.toNat, UInt32.toNat, UInt32.ofNat', BitVec.toNat_ofNat]

theorem escapeNonAscii_nil : escapeNonAscii [] = [] := rfl

theorem escapeNonAscii_cons (b : Nat) (s : List Nat) :
    escapeNonAscii (b :: s) = escapeByte b ++ escapeNonAscii s := by
  simp [escapeNonAscii]

theorem escapeNonAscii_append (s₁ s₂ : List Nat) :
    escapeNonAscii (s₁ ++ s₂) = escapeNonAscii s₁ ++ escapeNonAscii s₂ := by
  simp [escapeNonAscii]

theorem escapeByte_ascii (b : Nat) (h : b ≤ 126) :
    escapeByte b = [Char.ofNat b] := by
  unfold escapeByte
  rw [if_neg (by omega)]

theorem escapeByte_high (b : Nat) (h : 126 < b) :
    escapeByte b = tokenChars b := by
  unfold escapeByte
  rw [if_pos h]

theorem escapeNonAscii_ascii (s : List Nat) (h : ∀ b ∈ s, b ≤ 126) :
    escapeNonAscii s = s.map Char.ofNat := by
  induction s with
  | nil => rfl
  | cons b rest ih =>
    rw [escapeNonAscii_cons, escapeByte_ascii b (h b (List.mem_cons_self _ _)),
      List.map_cons, ih fun x hx => h x (List.mem_cons_of_mem _ hx)]
    rfl

theorem escapeNonAscii_high (s : List Nat) (h : ∀ b ∈ s, 126 < b) :
    escapeNonAscii s = (s.map tokenChars).flatten := by
  induction s with
  | nil => rfl
  | cons b rest ih =>
    rw [escapeNonAscii_cons, escapeByte_high b (h b (List.mem_cons_self _ _))]
    rw [ih fun x hx => h x (List.mem_cons_of_mem _ hx)]
    simp

theorem matchToken_nil : matchToken [] = Option.none := rfl

theorem matchRunAux_none (fuel : Nat) (s : List Char)
    (h : matchToken s = Option.none) :
    matchRunAux fuel s = Option.none := by
  cases fuel with
  | zero => rfl
  | succ f => simp [matchRunAux, h]

theorem blockText_length_ge (blk : List Nat) :
    blk.length ≤ ((blk.map tokenChars).flatten).length := by
  induction blk with
  | nil => simp
  | cons b rest ih =>
    simp only [List.map_cons, List.flatten_cons, List.length_append,
      List.length_cons]
    have hlen : 1 ≤ (tokenChars b).length := by
      rw [tokenChars_eq_tokenShape, tokenShape_length]
      omega
    omega

theorem matchRunAux_blockText :
    ∀ (blk : List Nat) (fuel : Nat) (rest : List Char),
      blk ≠ [] → blk.length ≤ fuel → matchToken rest = Option.none →
      matchRunAux fuel ((blk.map tokenChars).flatten ++ rest)
        = Option.some ((blk.map tokenChars).flatten, blk, rest) := by
  intro blk
  induction blk with
  | nil => intro fuel rest h; exact absurd rfl h
  | cons b blk' ih =>
    intro fuel rest hne hfuel hrest
    cases fuel with
    | zero => simp at hfuel
    | succ f =>
      have hmt : matchToken (tokenChars b ++ ((blk'.map tokenChars).flatten ++ rest))
          = Option.some (tokenChars b, b, (blk'.map tokenChars).flatten ++ rest) := by
        rw [tokenChars_eq_tokenShape,
          matchToken_tokenShape _ (decDigits_ne_nil b) (decDigits_isDigitChar b) _,
          digitsToNat_decDigits]
      cases blk' with
      | nil =>
        have hinner : matchRunAux f rest = Option.none := matchRunAux_none f rest hrest
        have hmt' : matchToken (tokenChars b ++ rest)
            = Option.some (tokenChars b, b, rest) := by
          simpa using hmt
        simp only [List.map_cons, List.map_nil, List.flatten_cons, List.flatten_nil,
          List.append_nil, matchRunAux]
        rw [hmt']
        simp [hinner]
      | cons b2 blk'' =>
        have hih := ih f rest (by simp) (by simp at hfuel ⊢; omega) hrest
        rw [show ((List.map tokenChars (b :: b2 :: blk'')).flatten ++ rest)
            = tokenChars b ++ ((List.map tokenChars (b2 :: blk'')).flatten ++ rest) by
          simp]
        simp only [matchRunAux]
        rw [hmt]
        simp only [List.map_cons, List.flatten_cons, List.append_assoc] at hih
        simp [hih]

/-- `matchToken` fails at the head of the escape rendering of a byte
string that starts with an ASCII byte (or is empty), provided the byte
string is a suffix of the token-free source. -/
theorem matchToken_escape_none (sFull : List Nat)
    (Hs : ∀ t, t <:+ sFull.map Char.ofNat → matchToken t = Option.none)
    (srest : List Nat) (hsuf : srest <:+ sFull)
    (hhead : srest = [] ∨ ∃ b rest, srest = b :: rest ∧ b ≤ 126) :
    matchToken (escapeNonAscii srest) = Option.none := by
  rcases hhead with rfl | ⟨b, rest, rfl, hb⟩
  · rfl
  · have hsplit : (b :: rest) = (b :: rest).takeWhile isAsciiByte
        ++ (b :: rest).dropWhile isAsciiByte :=
      (List.takeWhile_append_dropWhile _ _).symm
    have hta : ∀ x ∈ (b :: rest).takeWhile isAsciiByte, x ≤ 126 := by
      intro x hx
      have := List.mem_takeWhile_imp hx
      simpa [isAsciiByte] using this
    have htne : (b :: rest).takeWhile isAsciiByte ≠ [] := by
      rw [List.takeWhile_cons, if_pos (by simpa [isAsciiByte] using hb)]
      exact fun h => nomatch h
    rw [hsplit, escapeNonAscii_append,
      escapeNonAscii_ascii _ hta]
    apply matchToken_none_infix (sFull.map Char.ofNat) Hs
    · -- the ascii prefix is an infix of the token-free text
      have h1 : (b :: rest).takeWhile isAsciiByte <:+: sFull :=
        ((List.takeWhile_prefix _).isInfix).trans hsuf.isInfix
      exact h1.map Char.ofNat
    · intro h
      exact htne (by simpa using congrArg (List.map Char.toNat) h)
    · -- the continuation is empty or starts with two braces
      cases hdw : (b :: rest).dropWhile isAsciiByte with
      | nil => exact Or.inl rfl
      | cons b2 rest2 =>
        have hb2 : ¬ (isAsciiByte b2 = true) := by
          have := List.head?_dropWhile_not isAsciiByte (b :: rest)
          rw [hdw] at this
          simpa using this
        have hb2' : 126 < b2 := by
          simp [isAsciiByte] at hb2
          omega
        rw [escapeNonAscii_cons, escapeByte_high b2 hb2']
        exact Or.inr ⟨_, rfl⟩

/-! ### Decoding lemmas -/

theorem cp1252Char_ascii (b : Nat) (h : b ≤ 126) :
    cp1252Char b = Option.some b := by
  unfold cp1252Char
  rw [if_pos (by omega)]

theorem cp1252Char_cases (b v : Nat) (h : cp1252Char b = Option.some v) :
    (b ≤ 126 ∧ v = b) ∨ (126 < b ∧ 126 < v ∧ v < 55296) := by
  unfold cp1252Char at h
  by_cases h1 : b < 128
  · rw [if_pos h1] at h
    injection h with hv
    subst hv
    by_cases h2 : b ≤ 126
    · exact Or.inl ⟨h2, rfl⟩
    · exact Or.inr ⟨by omega, by omega, by omega⟩
  · rw [if_neg h1] at h
    by_cases h2 : 160 ≤ b ∧ b < 256
    · rw [if_pos h2] at h
      injection h with hv
      subst hv
      exact Or.inr ⟨by omega, by omega, by omega⟩
    · rw [if_neg h2] at h
      refine Or.inr ⟨by omega, ?_⟩
      split at h
      all_goals simp_all
      all_goals omega

theorem decodeCp1252_cons_some (b : Nat) (l : List Nat) (m : List Char)
    (h : decodeCp1252 (b :: l) = Option.some m) :
    ∃ v m', cp1252Char b = Option.some v ∧ decodeCp1252 l = Option.some m' ∧
      m = Char.ofNat v :: m' := by
  unfold decodeCp1252 at h
  cases hv : cp1252Char b with
  | none => rw [hv] at h; cases h
  | some v =>
    cases hm : decodeCp1252 l with
    | none => rw [hv, hm] at h; cases h
    | some m' =>
      rw [hv, hm] at h
      injection h with h
      exact ⟨v, m', rfl, rfl, h.symm⟩

theorem decodeCp1252_append (l₁ l₂ : List Nat) (d₁ d₂ : List Char)
    (h₁ : decodeCp1252 l₁ = Option.some d₁)
    (h₂ : decodeCp1252 l₂ = Option.some d₂) :
    decodeCp1252 (l₁ ++ l₂) = Option.some (d₁ ++ d₂) := by
  induction l₁ generalizing d₁ with
  | nil =>
    injection h₁ with h₁
    rw [← h₁]
    simpa using h₂
  | cons b l ih =>
    obtain ⟨v, m', hv, hm, rfl⟩ := decodeCp1252_cons_some b l d₁ h₁
    show decodeCp1252 (b :: (l ++ l₂)) = _
    unfold decodeCp1252
    rw [hv, ih m' hm]
    rfl

theorem decodeCp1252_append_inv (l₁ l₂ : List Nat) (m : List Char)
    (h : decodeCp1252 (l₁ ++ l₂) = Option.some m) :
    ∃ d₁ d₂, decodeCp1252 l₁ = Option.some d₁ ∧
      decodeCp1252 l₂ = Option.some d₂ ∧ m = d₁ ++ d₂ := by
  induction l₁ generalizing m with
  | nil => exact ⟨[], m, rfl, h, rfl⟩
  | cons b l ih =>
    obtain ⟨v, m', hv, hm, rfl⟩ := decodeCp1252_cons_some b (l ++ l₂) m h
    obtain ⟨d₁, d₂, hd₁, hd₂, rfl⟩ := ih m' hm
    refine ⟨Char.ofNat v :: d₁, d₂, ?_, hd₂, rfl⟩
    unfold decodeCp1252
    rw [hv, hd₁]

theorem decodeCp1252_ascii (l : List Nat) (h : ∀ b ∈ l, b ≤ 126) :
    decodeCp1252 l = Option.some (l.map Char.ofNat) := by
  induction l with
  | nil => rfl
  | cons b rest ih =>
    unfold decodeCp1252
    rw [cp1252Char_ascii b (h b (List.mem_cons_self _ _)),
      ih fun x hx => h x (List.mem_cons_of_mem _ hx)]
    rfl

theorem decodeCp1252_suffix (l : List Nat) (m : List Char)
    (h : decodeCp1252 l = Option.some m) (u₂ : List Char) (hu : u₂ <:+ m) :
    ∃ lb, lb <:+ l ∧ decodeCp1252 lb = Option.some u₂ := by
  induction l generalizing m with
  | nil =>
    injection h with h
    rw [← h] at hu
    rw [List.suffix_nil.mp hu]
    exact ⟨[], List.nil_suffix, rfl⟩
  | cons b l ih =>
    obtain ⟨v, m', hv, hm', rfl⟩ := decodeCp1252_cons_some b l m h
    rcases List.suffix_cons_iff.mp hu with rfl | hu'
    · refine ⟨b :: l, List.suffix_refl _, ?_⟩
      unfold decodeCp1252
      rw [hv, hm']
    · obtain ⟨lb, hlb, hlbdec⟩ := ih m' hm' hu'
      exact ⟨lb, hlb.trans (List.suffix_cons _ _), hlbdec⟩

theorem decodeCp1252_nil_of_some (lb : List Nat) (u₂ : List Char)
    (h : decodeCp1252 lb = Option.some u₂) (hne : u₂ ≠ []) : lb ≠ [] := by
  intro hlb
  subst hlb
  injection h with h
  exact hne h.symm

/-- A nonempty suffix of the decoded prefix never starts a token match
when followed by nothing or by token text.  The suffix either lies inside
an ASCII segment of the token-free source or contains a decoded character
above 126 right after its ASCII head. -/
theorem matchToken_none_decoded (sFull : List Nat)
    (Hs : ∀ t, t <:+ sFull.map Char.ofNat → matchToken t = Option.none)
    (sdone : List Nat) (hpre : sdone <+: sFull)
    (dchars : List Char) (hdec : decodeCp1252 sdone = Option.some dchars)
    (u₂ : List Char) (hu₂ : u₂ <:+ dchars) (hne : u₂ ≠ [])
    (X : List Char) (hX : X = [] ∨ ∃ v', X = '{' :: '{' :: v') :
    matchToken (u₂ ++ X) = Option.none := by
  obtain ⟨u₂b, hu₂bsuf, hu₂bdec⟩ := decodeCp1252_suffix sdone dchars hdec u₂ hu₂
  have hsplit : u₂b = u₂b.takeWhile isAsciiByte ++ u₂b.dropWhile isAsciiByte :=
    (List.takeWhile_append_dropWhile _ _).symm
  have hta : ∀ x ∈ u₂b.takeWhile isAsciiByte, x ≤ 126 := by
    intro x hx
    have := List.mem_takeWhile_imp hx
    simpa [isAsciiByte] using this
  have hinfix : u₂b.takeWhile isAsciiByte <:+: sFull :=
    ((List.takeWhile_prefix _).isInfix).trans (hu₂bsuf.isInfix.trans hpre.isInfix)
  cases hdw : u₂b.dropWhile isAsciiByte with
  | nil =>
    have hall : ∀ x ∈ u₂b, x ≤ 126 := by
      intro x hx
      apply hta
      rw [hsplit, hdw, List.append_nil] at hx
      exact hx
    have hu₂chars : u₂ = u₂b.map Char.ofNat := by
      have := decodeCp1252_ascii u₂b hall
      rw [hu₂bdec] at this
      injection this
    apply matchToken_none_infix (sFull.map Char.ofNat) Hs
    · rw [hu₂chars]
      exact (hu₂bsuf.isInfix.trans hpre.isInfix).map Char.ofNat
    · exact hne
    · exact hX
  | cons δb w5b =>
    have hu₂bsplit : u₂b = u₂b.takeWhile isAsciiByte ++ (δb :: w5b) := by
      conv_lhs => rw [hsplit]
      rw [hdw]
    have hδb : 126 < δb := by
      have hh := List.head?_dropWhile_not isAsciiByte u₂b
      rw [hdw] at hh
      simp [isAsciiByte] at hh
      omega
    rw [hu₂bsplit] at hu₂bdec
    obtain ⟨d₁, d₂, hd₁, hd₂, rfl⟩ :=
      decodeCp1252_append_inv _ _ _ hu₂bdec
    obtain ⟨vδ, m5, hvδ, hm5, rfl⟩ := decodeCp1252_cons_some _ _ _ hd₂
    have hd₁chars : d₁ = (u₂b.takeWhile isAsciiByte).map Char.ofNat := by
      have := decodeCp1252_ascii _ hta
      rw [hd₁] at this
      injection this
    have hvδhigh : 126 < (Char.ofNat vδ).toNat := by
      rcases cp1252Char_cases δb vδ hvδ with ⟨hle, _⟩ | ⟨_, hgt, hlt⟩
      · omega
      · rw [char_toNat_ofNat_lt vδ hlt]
        exact hgt
    rw [List.append_assoc, List.cons_append]
    apply matchToken_none_highbar (sFull.map Char.ofNat) Hs
    · rw [hd₁chars]
      exact hinfix.map Char.ofNat
    · exact hvδhigh

theorem decodeCp1252_isSome (l : List Nat)
    (h : ∀ b ∈ l, cp1252Char b ≠ Option.none) :
    ∃ d, decodeCp1252 l = Option.some d := by
  induction l with
  | nil => exact ⟨[], rfl⟩
  | cons b rest ih =>
    obtain ⟨d, hd⟩ := ih fun x hx => h x (List.mem_cons_of_mem _ hx)
    cases hv : cp1252Char b with
    | none => exact absurd hv (h b (List.mem_cons_self _ _))
    | some v =>
      refine ⟨Char.ofNat v :: d, ?_⟩
      unfold decodeCp1252
      rw [hv, hd]

/-- The text starting with a token never begins at a position where
`matchToken` fails. -/
theorem token_isPrefixOf_false (W : List Char) (T : List Char)
    (hW : matchToken W = Option.none)
    (hT : ∃ b T', T = tokenChars b ++ T') :
    T.isPrefixOf W = false := by
  obtain ⟨b, T', rfl⟩ := hT
  cases hp : (tokenChars b ++ T').isPrefixOf W with
  | false => rfl
  | true =>
    exfalso
    obtain ⟨z, hz⟩ := List.isPrefixOf_iff_prefix.mp hp
    rw [← hz, List.append_assoc, tokenChars_eq_tokenShape,
      matchToken_tokenShape _ (decDigits_ne_nil b) (decDigits_isDigitChar b)] at hW
    cases hW

/-- Main `str.replace(old, new, 1)` lemma: when no occurrence of `old`
starts inside the prefix `u`, the first occurrence is the explicit one. -/
theorem replaceFirst_at (u T dec v : List Char) (hT : T ≠ [])
    (hno : ∀ u₂, u₂ ≠ [] → u₂ <:+ u →
      T.isPrefixOf (u₂ ++ (T ++ v)) = false) :
    replaceFirst (u ++ (T ++ v)) T dec = u ++ (dec ++ v) := by
  induction u with
  | nil =>
    simp only [List.nil_append]
    cases T with
    | nil => exact absurd rfl hT
    | cons t0 T' =>
      rw [List.cons_append]
      unfold replaceFirst
      rw [if_pos (List.isPrefixOf_iff_prefix.mpr ⟨v, by rw [List.cons_append]⟩)]
      congr 1
      rw [show (t0 :: (T' ++ v)) = (t0 :: T') ++ v by rw [List.cons_append]]
      rw [List.drop_left]
  | cons c u' ih =>
    rw [List.cons_append]
    unfold replaceFirst
    rw [if_neg ?hcneg]
    case hcneg =>
      have := hno (c :: u') (fun h => nomatch h) (List.suffix_refl _)
      rw [List.cons_append] at this
      rw [this]
      exact fun h => nomatch h
    rw [ih fun u₂ hne hsuf => hno u₂ hne (hsuf.trans (List.suffix_cons c u'))]
    rw [List.cons_append]

theorem dropWhile_head_false (p : Nat → Bool) :
    ∀ (l : List Nat) c r, l.dropWhile p = c :: r → p c = false := by
  intro l
  induction l with
  | nil => intro c r h; cases h
  | cons a l' ih =>
    intro c r h
    rw [List.dropWhile_cons] at h
    split at h
    · exact ih c r h
    · next hpa =>
      have h1 : a = c := (((List.cons.injEq _ _ _ _).mp h)).1
      rw [← h1]
      simpa using hpa

theorem unescape_fold_main (sFull : List Nat)
    (H3 : ∀ b ∈ sFull, 126 < b → cp1252Char b ≠ Option.none)
    (Hs : ∀ t, t <:+ sFull.map Char.ofNat → matchToken t = Option.none) :
    ∀ n fuel (srest sdone : List Nat) (dchars : List Char),
      srest.length ≤ n →
      sdone ++ srest = sFull →
      decodeCp1252 sdone = Option.some dchars →
      (escapeNonAscii srest).length ≤ fuel →
      ∃ dres, decodeCp1252 srest = Option.some dres ∧
        (tokenRunsAux fuel (escapeNonAscii srest)).foldlM
          (fun acc run => (decodeCp1252 run.2).map fun dec => replaceFirst acc run.1 dec)
          (dchars ++ escapeNonAscii srest)
          = Option.some (dchars ++ dres) := by
  intro n
  induction n with
  | zero =>
    intro fuel srest sdone dchars hlen _ _ _
    have hnil : srest = [] := List.eq_nil_of_length_eq_zero (by omega)
    subst hnil
    refine ⟨[], rfl, ?_⟩
    cases fuel <;> simp [tokenRunsAux, escapeNonAscii]
  | succ n ih =>
    intro fuel srest sdone dchars hlen hglue hdec hfuel
    cases srest with
    | nil =>
      refine ⟨[], rfl, ?_⟩
      cases fuel <;> simp [tokenRunsAux, escapeNonAscii]
    | cons b rest =>
      simp only [List.length_cons] at hlen
      by_cases hb : b ≤ 126
      · -- ASCII head: the scanner steps over one character
        have hmt : matchToken (escapeNonAscii (b :: rest)) = Option.none :=
          matchToken_escape_none sFull Hs _ ⟨sdone, hglue⟩ (Or.inr ⟨b, rest, rfl, hb⟩)
        have hE : escapeNonAscii (b :: rest)
            = Char.ofNat b :: escapeNonAscii rest := by
          rw [escapeNonAscii_cons, escapeByte_ascii b hb]
          rfl
        cases fuel with
        | zero => rw [hE] at hfuel; simp at hfuel
        | succ f =>
          have hruns : tokenRunsAux (f + 1) (escapeNonAscii (b :: rest))
              = tokenRunsAux f (escapeNonAscii rest) := by
            rw [hE] at hmt ⊢
            simp only [tokenRunsAux]
            rw [matchRunAux_none _ _ hmt]
          have hdecb : decodeCp1252 (sdone ++ [b])
              = Option.some (dchars ++ [Char.ofNat b]) :=
            decodeCp1252_append _ _ _ _ hdec
              (by simp [decodeCp1252, cp1252Char_ascii b hb])
          obtain ⟨dres', hdres', hfold'⟩ := ih f rest (sdone ++ [b])
            (dchars ++ [Char.ofNat b])
            (by omega)
            (by rw [List.append_assoc]; exact hglue)
            hdecb
            (by rw [hE] at hfuel; simp only [List.length_cons] at hfuel; omega)
          refine ⟨Char.ofNat b :: dres', ?_, ?_⟩
          · simp only [decodeCp1252]
            rw [cp1252Char_ascii b hb, hdres']
          · rw [hruns, hE]
            have hacc : dchars ++ (Char.ofNat b :: escapeNonAscii rest)
                = (dchars ++ [Char.ofNat b]) ++ escapeNonAscii rest := by simp
            rw [hacc, hfold']
            simp
      · -- High head: a maximal block of high bytes forms one token run
        have hb' : 126 < b := by omega
        have hsplitbr : b :: rest
            = (b :: rest).takeWhile (fun u => decide (126 < u))
              ++ (b :: rest).dropWhile (fun u => decide (126 < u)) :=
          (List.takeWhile_append_dropWhile _ _).symm
        set blk := (b :: rest).takeWhile (fun u => decide (126 < u)) with hblkdef
        set s₂ := (b :: rest).dropWhile (fun u => decide (126 < u)) with hs₂def
        clear_value blk s₂
        have hblkcons : blk = b :: rest.takeWhile (fun u => decide (126 < u)) := by
          rw [hblkdef, List.takeWhile_cons, if_pos (by simpa using hb')]
        have hblkne : blk ≠ [] := by rw [hblkcons]; exact List.cons_ne_nil _ _
        have hblkhigh : ∀ x ∈ blk, 126 < x := by
          intro x hx
          rw [hblkdef] at hx
          simpa using List.mem_takeWhile_imp hx
        have hsub : ∀ x ∈ blk, x ∈ sFull := by
          intro x hx
          rw [← hglue]
          exact List.mem_append.mpr (Or.inr (by
            rw [hsplitbr]
            exact List.mem_append.mpr (Or.inl hx)))
        obtain ⟨dB, hdB⟩ := decodeCp1252_isSome blk
          fun x hx => H3 x (hsub x hx) (hblkhigh x hx)
        have hE : escapeNonAscii (b :: rest)
            = (blk.map tokenChars).flatten ++ escapeNonAscii s₂ := by
          conv_lhs => rw [hsplitbr]
          rw [escapeNonAscii_append, escapeNonAscii_high blk hblkhigh]
        have hblkTcons : (blk.map tokenChars).flatten
            = tokenChars b
              ++ ((rest.takeWhile (fun u => decide (126 < u))).map tokenChars).flatten := by
          rw [hblkcons]
          simp
        have hblkTne : (blk.map tokenChars).flatten ≠ [] := by
          rw [hblkTcons]
          simp [tokenChars]
        have hs₂suf : s₂ <:+ sFull := by
          have h1 : s₂ <:+ (b :: rest) := by
            rw [hs₂def]
            exact List.dropWhile_suffix _
          exact h1.trans ⟨sdone, hglue⟩
        have hs₂head : s₂ = [] ∨ ∃ c2 r2, s₂ = c2 :: r2 ∧ c2 ≤ 126 := by
          cases hc : s₂ with
          | nil => exact Or.inl rfl
          | cons c2 r2 =>
            refine Or.inr ⟨c2, r2, rfl, ?_⟩
            have h0 := dropWhile_head_false (fun u => decide (126 < u)) (b :: rest)
              c2 r2 (by rw [← hs₂def]; exact hc)
            simp at h0
            omega
        have hmtE₂ : matchToken (escapeNonAscii s₂) = Option.none :=
          matchToken_escape_none sFull Hs s₂ hs₂suf hs₂head
        have hlenE : (escapeNonAscii (b :: rest)).length
            = ((blk.map tokenChars).flatten).length + (escapeNonAscii s₂).length := by
          rw [hE, List.length_append]
        have hbl : 1 ≤ blk.length := by rw [hblkcons]; simp
        have hblkTpos : 1 ≤ ((blk.map tokenChars).flatten).length := by
          have := blockText_length_ge blk
          omega
        cases fuel with
        | zero => omega
        | succ f =>
          have hrun : matchRunAux (escapeNonAscii (b :: rest)).length
              (escapeNonAscii (b :: rest))
              = Option.some ((blk.map tokenChars).flatten, blk, escapeNonAscii s₂) := by
            rw [hE]
            exact matchRunAux_blockText blk _ _ hblkne
              (by
                rw [List.length_append]
                have := blockText_length_ge blk
                omega)
              hmtE₂
          have hruns : tokenRunsAux (f + 1) (escapeNonAscii (b :: rest))
              = ((blk.map tokenChars).flatten, blk)
                :: tokenRunsAux f (escapeNonAscii s₂) := by
            cases hEc : escapeNonAscii (b :: rest) with
            | nil =>
              rw [hEc] at hlenE
              simp only [List.length_nil] at hlenE
              omega
            | cons e0 et =>
              rw [hEc] at hrun
              simp only [tokenRunsAux]
              rw [hrun]
          have hXshape : (blk.map tokenChars).flatten ++ escapeNonAscii s₂
              = '{' :: '{' :: (('u' :: 'n' :: 'c' :: (decDigits b ++ ['}', '}']))
                ++ (((rest.takeWhile (fun u => decide (126 < u))).map tokenChars).flatten
                  ++ escapeNonAscii s₂)) := by
            rw [hblkTcons]
            simp [tokenChars]
          have hrepl : replaceFirst (dchars ++ escapeNonAscii (b :: rest))
              ((blk.map tokenChars).flatten) dB
              = dchars ++ (dB ++ escapeNonAscii s₂) := by
            rw [hE]
            apply replaceFirst_at dchars _ dB _ hblkTne
            intro u₂ hne hsuf2
            apply token_isPrefixOf_false
            · exact matchToken_none_decoded sFull Hs sdone ⟨b :: rest, hglue⟩
                dchars hdec u₂ hsuf2 hne _ (Or.inr ⟨_, hXshape⟩)
            · exact ⟨b, _, hblkTcons⟩
          have hlensplit : blk.length + s₂.length = rest.length + 1 := by
            have := congrArg List.length hsplitbr
            simp [List.length_append] at this
            omega
          obtain ⟨dres₂, hd₂, hfold₂⟩ := ih f s₂ (sdone ++ blk) (dchars ++ dB)
            (by omega)
            (by rw [List.append_assoc, ← hsplitbr]; exact hglue)
            (decodeCp1252_append _ _ _ _ hdec hdB)
            (by omega)
          refine ⟨dB ++ dres₂, ?_, ?_⟩
          · conv_lhs => rw [hsplitbr]
            exact decodeCp1252_append _ _ _ _ hdB hd₂
          · rw [hruns]
            simp only [List.foldlM_cons, hdB, Option.map_some', Option.some_bind]
            rw [hrepl]
            rw [show dchars ++ (dB ++ escapeNonAscii s₂)
                = (dchars ++ dB) ++ escapeNonAscii s₂
              from (List.append_assoc _ _ _).symm]
            exact hfold₂.trans (by rw [List.append_assoc])

theorem dictLookup_dictSet_ne (d : List (String × α)) (k nm : String)
    (v : α) (h : k ≠ nm) :
    dictLookup (dictSet d k v) nm = dictLookup d nm := by
  induction d with
  | nil =>
    show dictLookup [(k, v)] nm = dictLookup [] nm
    have hbeq : (k == nm) = false := by simpa using h
    simp [dictLookup, List.find?, hbeq]
  | cons e rest ih =>
    by_cases hek : (e.1 == k) = true
    · have hke : k = e.1 := (eq_of_beq hek).symm
      have h1 : (k == nm) = false := by simpa using h
      have h2 : (e.1 == nm) = false := by
        simpa using fun he => h (hke.trans he)
      simp [dictSet, hek, dictLookup, List.find?, h1, h2]
    · have hek' : (e.1 == k) = false := by
        cases hv : (e.1 == k) with
        | false => rfl
        | true => exact absurd hv hek
      simp only [dictSet, hek', if_false, Bool.false_eq_true]
      by_cases henm : (e.1 == nm) = true
      · simp [dictLookup, List.find?, henm]
      · have henm' : (e.1 == nm) = false := by
          cases hv : (e.1 == nm) with
          | false => rfl
          | true => exact absurd hv henm
        simp only [dictLookup, List.find?, henm']
        exact ih

theorem pairwise_key_unique {β : Type} :
    ∀ (l : List (String × β)), l.Pairwise (fun a b => a.1 ≠ b.1) →
      ∀ a ∈ l, ∀ b ∈ l, a.1 = b.1 → a = b := by
  intro l
  induction l with
  | nil => intro _ a ha; cases ha
  | cons hd tl ih =>
    intro hp a ha b hb hab
    rw [List.pairwise_cons] at hp
    rcases List.mem_cons.mp ha with rfl | ha'
    · rcases List.mem_cons.mp hb with rfl | hb'
      · rfl
      · exact absurd hab (hp.1 b hb')
    · rcases List.mem_cons.mp hb with rfl | hb'
      · exact absurd hab.symm (hp.1 a ha')
      · exact ih hp.2 a ha' b hb' hab

theorem loadVarsFoldAux (store : List (String × TagVal)) (pt : String) :
    ∀ (rv : List (String × TypeExpr)) (acc : List (String × PyValue)),
      (∀ kv ∈ rv, ∃ s v, loadVar store pt kv.1 kv.2 = Except.ok (s, v)) →
      ∃ synced,
        rv.foldlM (fun synced kv =>
            (loadVar store pt kv.1 kv.2).map fun sv =>
              if sv.1 then dictSet synced kv.1 sv.2 else synced) acc
          = Except.ok synced ∧
        ∀ nm, dictLookup acc nm = Option.none →
          (∀ kv ∈ rv, kv.1 = nm →
            ∀ s v, loadVar store pt kv.1 kv.2 = Except.ok (s, v) → s = false) →
          dictLookup synced nm = Option.none := by
  intro rv
  induction rv with
  | nil =>
    intro acc _
    exact ⟨acc, rfl, fun nm h _ => h⟩
  | cons kv0 tl ih =>
    intro acc hall
    obtain ⟨s0, v0, h0⟩ := hall kv0 (List.mem_cons_self _ _)
    obtain ⟨synced, hfold, hinv⟩ := ih (if s0 then dictSet acc kv0.1 v0 else acc)
      (fun kv hkv => hall kv (List.mem_cons_of_mem _ hkv))
    refine ⟨synced, ?_, ?_⟩
    · simp only [List.foldlM_cons]
      rw [h0]
      exact hfold
    · intro nm haccnm hflags
      apply hinv nm ?_ (fun kv hkv => hflags kv (List.mem_cons_of_mem _ hkv))
      by_cases hk : kv0.1 = nm
      · have hs0 : s0 = false := hflags kv0 (List.mem_cons_self _ _) hk s0 v0 h0
        rw [hs0]
        simpa using haccnm
      · cases s0 with
        | false => simpa using haccnm
        | true =>
          show dictLookup (dictSet acc kv0.1 v0) nm = Option.none
          rw [dictLookup_dictSet_ne acc kv0.1 nm v0 hk]
          exact haccnm

/-! ## Claim theorems: C6, C7, C8, C10 -/

/-- C8 (confirmed): type lookup is case-insensitive and alias-complete:
resolving `"Integer"`, `"int"` and `"long"` each yields the same descriptor
as resolving the native integer type — for the dm-script declaration
keyword (`get_dm_type _ false`), the storage-type projection
(`get_dm_type _ true`) and the Python-type projection (`get_python_type`) —
and resolving the unknown expression `"bogus"` fails with `LookupError`. -/
theorem claim_C8 :
    get_dm_type (.str "Integer") false = get_dm_type (.ty .int) false ∧
    get_dm_type (.str "int") false = get_dm_type (.ty .int) false ∧
    get_dm_type (.str "long") false = get_dm_type (.ty .int) false ∧
    get_dm_type (.str "Integer") true = get_dm_type (.ty .int) true ∧
    get_dm_type (.str "int") true = get_dm_type (.ty .int) true ∧
    get_dm_type (.str "long") true = get_dm_type (.ty .int) true ∧
    get_dm_type (.ty .int) false = .ok "number" ∧
    get_dm_type (.ty .int) true = .ok "Long" ∧
    get_python_type (.str "Integer") = .ok .int ∧
    get_python_type (.str "int") = .ok .int ∧
    get_python_type (.str "long") = .ok .int ∧
    get_python_type (.ty .int) = .ok .int ∧
    get_dm_type (.str "bogus") false = .error .lookupError ∧
    get_dm_type (.str "bogus") true = .error .lookupError ∧
    get_python_type (.str "bogus") = .error .lookupError :=
  ⟨rfl, rfl, rfl, rfl, rfl, rfl, rfl, rfl, rfl, rfl, rfl, rfl, rfl, rfl, rfl⟩

/-- C7 (corrected), counterexample: the claim says every character outside
`[A-Za-z0-9_]` is replaced by an underscore, so the micro sign `µ`
(code point 181) should become `"_"` — but the source pattern `[^\w\d_]`
uses unicode `\w`, which keeps `µ`: `escape_dm_variable` returns the
input unchanged, differing from the claimed behaviour. -/
theorem claim_C7_counterexample :
    escape_dm_variable (String.mk [Char.ofNat 181])
       = .ok (String.mk [Char.ofNat 181]) ∧
    escape_dm_variable_claimed (String.mk [Char.ofNat 181]) = .ok "_" ∧
    String.mk [Char.ofNat 181] ≠ "_" :=
  ⟨rfl, rfl, by decide⟩

/-- C7 (corrected), amended: `escape_dm_variable` replaces every character
outside Python's unicode word class (`\w`: alphanumerics — including
non-ASCII letters and digits such as `µ` — plus the underscore) with an
underscore, and raises `ValueError` exactly when the result is empty,
which for this length-preserving substitution means exactly when the
input is empty; in particular `escape_dm_variable ""` fails and
`escape_dm_variable "a b-c"` returns `"a_b_c"`.  Inputs are restricted to
Latin-1, the modelled domain of `pyWordChar`. -/
theorem claim_C7_amended :
    escape_dm_variable "" = .error .valueError ∧
    escape_dm_variable "a b-c" = .ok "a_b_c" ∧
    (∀ s : String, (∀ c ∈ s.data, c.toNat < 256) →
      ((escape_dm_variable s = .error PyExn.valueError) ↔ s = "") ∧
      (s ≠ "" → escape_dm_variable s =
        .ok (String.mk (s.data.map fun c => if pyWordChar c then c else '_')))) := by
  refine ⟨rfl, rfl, ?_⟩
  intro s _
  have hmk : ∀ h2 : s.data.map (fun c => if pyWordChar c then c else '_') = [],
      s = "" := by
    intro h2
    have hnil : s.data = [] := List.map_eq_nil_iff.mp h2
    cases s with
    | mk l =>
      cases hnil
      rfl
  constructor
  · constructor
    · intro h
      by_cases hc :
          String.mk (s.data.map fun c => if pyWordChar c then c else '_') = ""
      · exact hmk ((stringMk_eq_empty_iff _).mp hc)
      · unfold escape_dm_variable at h
        rw [if_neg hc] at h
        cases h
    · rintro rfl
      rfl
  · intro hne
    unfold escape_dm_variable
    rw [if_neg ?hne2]
    case hne2 =>
      intro hc
      exact hne (hmk ((stringMk_eq_empty_iff _).mp hc))

/-- Witness for `claim_C7_amended` at the concrete input `"x-y"`. -/
theorem claim_C7_amended_witness :
    escape_dm_variable "x-y" =
      .ok (String.mk ("x-y".data.map fun c => if pyWordChar c then c else '_')) :=
  (claim_C7_amended.2.2 "x-y" (by decide)).2 (by decide)

/-- C6 (confirmed): when both `setvars` and `readvars` are given, every
`setvars` key absent from `readvars` is added to `readvars` with the
runtime type of the caller's value, an explicit `readvars` entry for a
shared key is kept unchanged, and `setvars = {"a": 10}` with no explicit
`readvars` yields a `readvars` containing `"a"` with the integer kind. -/
theorem claim_C6 :
    (∀ rv sv k, dictContains rv k = true →
      dictLookup ((addSetvarsToReadvars (Option.some rv) (Option.some sv)).getD []) k
        = dictLookup rv k) ∧
    (∀ rv sv k v, dictContains rv k = false →
      (sv.find? fun e => e.1 == k).map Prod.snd = Option.some v →
      dictLookup ((addSetvarsToReadvars (Option.some rv) (Option.some sv)).getD []) k
        = Option.some (TypeExpr.ty (typeOf v))) ∧
    addSetvarsToReadvars Option.none (Option.some [("a", PyValue.int 10)])
      = Option.some [("a", TypeExpr.ty PyType.int)] := by
  refine ⟨?_, ?_, rfl⟩
  · intro rv sv k hk
    exact readvarsMergeFold_lookup_preserved sv rv k hk
  · intro rv sv k v hk hfind
    exact readvarsMergeFold_lookup_added sv rv k v hk hfind

/-- Witness for `claim_C6` at concrete inputs: an explicit entry survives
and an absent key is added with the inferred kind. -/
theorem claim_C6_witness :
    dictLookup ((addSetvarsToReadvars
        (Option.some [("a", TypeExpr.str "int")])
        (Option.some [("a", PyValue.int 3), ("b", PyValue.str "x")])).getD []) "a"
      = dictLookup [("a", TypeExpr.str "int")] "a" ∧
    dictLookup ((addSetvarsToReadvars
        (Option.some [("a", TypeExpr.str "int")])
        (Option.some [("a", PyValue.int 3), ("b", PyValue.str "x")])).getD []) "b"
      = Option.some (TypeExpr.ty (typeOf (PyValue.str "x"))) :=
  ⟨claim_C6.1 [("a", TypeExpr.str "int")]
      [("a", PyValue.int 3), ("b", PyValue.str "x")] "a" rfl,
   claim_C6.2.1 [("a", TypeExpr.str "int")]
      [("a", PyValue.int 3), ("b", PyValue.str "x")] "b" (PyValue.str "x") rfl rfl⟩

/-- C10 (confirmed): constructing the wrapper with both a `readvars` dict
and a `setvars` dict mutates the caller-supplied `readvars` dict object in
place — `self.readvars` holds the caller's address, and after `__init__`
the object at that address has gained exactly one entry per `setvars` key
that was absent, mapped to the runtime type of the corresponding value. -/
theorem claim_C10 (h : Heap) (a : Nat) (sv : List (String × PyValue))
    (ha : a < h.dicts.length) (hnd : (sv.map Prod.fst).Nodup) :
    (initReadvars h (Option.some a) (Option.some sv)).2 = Option.some a ∧
    ((initReadvars h (Option.some a) (Option.some sv)).1).getDict a
      = h.getDict a
        ++ (sv.filter fun kv => ¬ dictContains (h.getDict a) kv.1).map
             (fun kv => (kv.1, TypeExpr.ty (typeOf kv.2))) :=
  ⟨rfl, initReadvarsFold_getDict sv h a ha hnd⟩

/-- Witness for `claim_C10` at a concrete heap: the caller's dict at
address 0 gains the absent key `"b"`. -/
theorem claim_C10_witness :
    (initReadvars ⟨[[("a", TypeExpr.str "int")]]⟩ (Option.some 0)
        (Option.some [("a", PyValue.int 1), ("b", PyValue.bool true)])).2
      = Option.some 0 ∧
    ((initReadvars ⟨[[("a", TypeExpr.str "int")]]⟩ (Option.some 0)
        (Option.some [("a", PyValue.int 1), ("b", PyValue.bool true)])).1).getDict 0
      = Heap.getDict ⟨[[("a", TypeExpr.str "int")]]⟩ 0
        ++ ([("a", PyValue.int 1), ("b", PyValue.bool true)].filter
              fun kv => ¬ dictContains
                (Heap.getDict ⟨[[("a", TypeExpr.str "int")]]⟩ 0) kv.1).map
             (fun kv => (kv.1, TypeExpr.ty (typeOf kv.2))) :=
  claim_C10 ⟨[[("a", TypeExpr.str "int")]]⟩ 0
    [("a", PyValue.int 1), ("b", PyValue.bool true)]
    (by decide) (by decide)

/-- C4 (confirmed): on the host message `"Error in line 42\nSomething
broke"` with recorded spans `[1,30]` labelled `"A"` and `[31,50]` labelled
`"B"`, the raised `DMScriptError` carries origin `"B"`, fragment-relative
line 12, absolute line 42 and the message `"Something broke"`; in general,
whenever the message parses with line `N` and a recorded span contains
`N`, the enriched error reports `line_in_origin = N - span.start + 1`. -/
theorem claim_C4 :
    handleExecuteError
        [⟨1, 30, "A", Option.none⟩, ⟨31, 50, "B", Option.none⟩]
        "Error in line 42\nSomething broke"
      = .enriched "Something broke" "B" 12 42 ∧
    (∀ sources emsg n m src,
      parseDmErrorMessage emsg = Option.some (n, m) →
      findContainingSource sources n = Option.some src →
      handleExecuteError sources emsg
        = .enriched m src.originName (n - src.start + 1) n) := by
  refine ⟨rfl, ?_⟩
  intro sources emsg n m src hp hf
  simp [handleExecuteError, hp, hf]

/-- Witness for `claim_C4` at a concrete message and span list. -/
theorem claim_C4_witness :
    handleExecuteError [⟨1, 5, "X", Option.none⟩] "Error in line 3\nboom"
      = ExecOutcome.enriched "boom" "X" 3 3 :=
  claim_C4.2 [⟨1, 5, "X", Option.none⟩] "Error in line 3\nboom" 3 "boom"
    ⟨1, 5, "X", Option.none⟩ rfl rfl

/-- C5 (code_bug): the claim — and the specification — say that when the
message matches the `"Error in line N"` pattern but no recorded span
contains `N`, the raw exception propagates unchanged.  The code's
`except` handler only re-raises in the `matches is None` branch; when the
pattern matched but the span scan finds nothing, the handler falls
through, the exception is swallowed, and execution continues into
`_loadVariablesFromDMScript` returning success.  First conjunct: the
failing input (line 42, only span `[1,30]`) reaches read-back instead of
re-raising.  Second conjunct: a message that does not match the pattern
is indeed re-raised unchanged. -/
theorem claim_C5_code_bug :
    handleExecuteError [⟨1, 30, "A", Option.none⟩] "Error in line 42\nBoom"
      = ExecOutcome.proceedReadBack ∧
    handleExecuteError [⟨1, 30, "A", Option.none⟩] "Some other failure"
      = ExecOutcome.reraised :=
  ⟨rfl, rfl⟩

/-- C3 (corrected), counterexample: for a top-level `None`,
`getDMCodeForVariable` does not emit a zero-valued fallback declaration —
it calls `get_dm_type(type(None))` first, and `NoneType` has no entry in
`_python_dm_type_map`, so a `LookupError` is raised. -/
theorem claim_C3_counterexample :
    getDMCodeForVariable "x" PyValue.none true = .error PyExn.lookupError := rfl

/-- C3 (corrected), amended: a `None` *leaf inside* a sequence or mapping
is emitted as the zero-valued fallback with the numeric storage type —
the element loop turns it into storage type `"Number"` and value `0`, so
a list parent gets `TagGroupInsertTagAsNumber(infinity(), 0)` and a dict
parent gets `TagGroupSetIndexedTagAsNumber(<index>, 0)` (shown both in
general and on concrete nested inputs) — but a *top-level* `None` raises
`LookupError` instead of any fallback. -/
theorem claim_C3_amended :
    getDMCodeForVariable "x" PyValue.none true = .error PyExn.lookupError ∧
    (∀ fuel : Nat, ∀ name pfx : String, ∀ depth i : Nat,
      elemFix (fuel + 1) name pfx depth i PyValue.none
        = .ok ([], "Number", "0")) ∧
    (∀ fuel : Nat, ∀ var name pfx : String, ∀ depth i : Nat,
      ∀ rest : List PyValue,
      listElemsCode (fuel + 2) var name pfx depth i (PyValue.none :: rest)
        = (listElemsCode (fuel + 1) var name pfx depth (i + 1) rest).map
            (fun ls =>
              (var ++ ".TagGroupInsertTagAsNumber(infinity(), 0);") :: ls)) ∧
    (∀ fuel : Nat, ∀ var index name pfx : String, ∀ depth i : Nat,
      ∀ k : String, ∀ rest : List (String × PyValue),
      dictElemsCode (fuel + 2) var index name pfx depth i ((k, PyValue.none) :: rest)
        = (dictElemsCode (fuel + 1) var index name pfx depth (i + 1) rest).map
            (fun ls =>
              (index ++ " = " ++ var ++ ".TagGroupCreateNewLabeledTag(\""
                 ++ escape_dm_string k ++ "\");")
              :: (var ++ ".TagGroupSetIndexedTagAsNumber(" ++ index ++ ", 0);")
              :: ls)) ∧
    getDMCodeForVariable "x" (PyValue.list [PyValue.none]) true
      = .ok "TagGroup x = NewTagList();\nx.TagGroupInsertTagAsNumber(infinity(), 0);" ∧
    getDMCodeForVariable "x" (PyValue.dict [("k", PyValue.none)]) true
      = .ok ("TagGroup x = NewTagGroup();\nnumber __exec_dmscript_x_index;\n"
          ++ "__exec_dmscript_x_index = x.TagGroupCreateNewLabeledTag(\"k\");\n"
          ++ "x.TagGroupSetIndexedTagAsNumber(__exec_dmscript_x_index, 0);") := by
  refine ⟨rfl, fun _ _ _ _ _ => rfl, ?_, ?_, rfl, rfl⟩
  · intro fuel var name pfx depth i rest
    cases h : synCode (fuel + 1) (.listElems var name pfx depth (i + 1) rest) with
    | error e =>
      simp [listElemsCode, synCode, h, Except.map, Bind.bind, Except.bind,
        pure, Except.pure, String.append_assoc]
    | ok r =>
      simp [listElemsCode, synCode, h, Except.map, Bind.bind, Except.bind,
        pure, Except.pure, String.append_assoc]
  · intro fuel var index name pfx depth i k rest
    cases h : synCode (fuel + 1) (.dictElems var index name pfx depth (i + 1) rest) with
    | error e =>
      simp [dictElemsCode, synCode, h, Except.map, Bind.bind, Except.bind,
        pure, Except.pure, String.append_assoc]
    | ok r =>
      simp [dictElemsCode, synCode, h, Except.map, Bind.bind, Except.bind,
        pure, Except.pure, String.append_assoc]

/-- C9 (code_bug): the claim — and the specification — say assembly with a
non-empty list of separate-thread bodies succeeds, emitting the
thread-start wrapper, the body and the thread-end wrapper with their own
fragment spans.  The separate-thread loop, however, converts the body to
`bytes` (`code = code.encode("iso-8859-1")`, line 929) before handing it
to `_addCode`, whose type check (`str`/`list`/`tuple` only) raises
`ValueError` — so assembly fails for *every* non-empty separate-thread
input.  First conjunct: the failing input (one inline body) evaluates to
the `ValueError`.  Second conjunct: `_addCode` rejects every `bytes`
payload, which is the mechanism of the failure. -/
theorem claim_C9_code_bug :
    assembleThroughThreads "1234" [] (fun _ => "") Option.none
        (Option.some [(ScriptKind.script, "OKDialog(1);")])
      = .error PyExn.valueError ∧
    (∀ dmscript : List String, ∀ sources : List ScriptSource, ∀ bs : List Nat,
      ∀ origin : String, ∀ detail : Option String, ∀ startpos : Nat, ∀ rdl : Bool,
      addCode dmscript sources (.bytes bs) origin detail startpos rdl
        = .error PyExn.valueError) :=
  ⟨rfl, fun _ _ _ _ _ _ _ => rfl⟩

/-- C1: Escaping a dm-script byte string and unescaping the result with the
default "Windows 1252" encoding is NOT always the identity on the decoded
text: a string that already contains literal token text (here the ASCII
bytes of "{{unc181}}") is left unchanged by the escaper but rewritten to
"µ" by the unescaper. -/
theorem claim_C1_counterexample :
    (∀ b ∈ [123, 123, 117, 110, 99, 49, 56, 49, 125, 125], b ≤ 126) ∧
    decodeCp1252 [123, 123, 117, 110, 99, 49, 56, 49, 125, 125]
      = Option.some ([123, 123, 117, 110, 99, 49, 56, 49, 125, 125].map Char.ofNat) ∧
    unescapeNonAscii
        (escapeNonAscii [123, 123, 117, 110, 99, 49, 56, 49, 125, 125])
      = Option.some [Char.ofNat 181] ∧
    Option.some [Char.ofNat 181]
      ≠ Option.some ([123, 123, 117, 110, 99, 49, 56, 49, 125, 125].map Char.ofNat) := by
  refine ⟨by decide, rfl, rfl, by decide⟩

/-- C1 (amended): provided no position of the input text starts a
`\{\{unc[\d]+\}\}` token match and every high byte is defined in the
Windows-1252 codec, unescaping the escaped string yields exactly the
Windows-1252 decoding of the input byte string (the round trip is the
identity on the decoded text). -/
theorem claim_C1_amended (s : List Nat)
    (hnotok : ∀ t ∈ (s.map Char.ofNat).tails, matchToken t = Option.none)
    (hdecodable : ∀ b ∈ s, 126 < b → cp1252Char b ≠ Option.none) :
    ∃ d, decodeCp1252 s = Option.some d ∧
      unescapeNonAscii (escapeNonAscii s) = Option.some d := by
  have Hs : ∀ t, t <:+ s.map Char.ofNat → matchToken t = Option.none :=
    fun t ht => hnotok t ((List.mem_tails _ _).mpr ht)
  obtain ⟨dres, hdres, hfold⟩ := unescape_fold_main s hdecodable Hs s.length
    (escapeNonAscii s).length s [] [] le_rfl rfl rfl le_rfl
  refine ⟨dres, hdres, ?_⟩
  unfold unescapeNonAscii tokenRuns
  simpa using hfold

theorem claim_C1_amended_witness :
    ∃ d, decodeCp1252 [117, 252] = Option.some d ∧
      unescapeNonAscii (escapeNonAscii [117, 252]) = Option.some d :=
  claim_C1_amended [117, 252] (by decide) (by decide)

/-- C2: the claimed fail-soft policy does not hold for a missing per-path
type tag: with the manifest present but the path's type tag absent,
`GetTagAsString` yields `""`, and `_getParsedValueFromPersistentTags`
passes `""` to `get_dm_type`, which raises `LookupError` — the whole
read-back fails instead of omitting the variable. -/
theorem claim_C2_counterexample :
    loadVariablesFromDMScript
        [("pt:\x7b\x7bavailable-paths\x7d\x7dv", TagVal.str "v/a;")]
        "pt" [("v", TypeExpr.str "dict")]
      = Except.error PyExn.lookupError := by rfl

/-- C2 (amended): the fail-soft policy holds for the other failure kinds
the claim names: a numeric scalar variable (dm-script tag type `Long`,
`Float` or `Boolean`) is read without any exception, with success exactly
when the tag exists with the right storage type; a container variable
whose path manifest is missing is read back as `(False, None)` without
any exception; and whenever every per-variable read returns (rather than
raises), the whole read-back returns and every variable whose read
reported failure is omitted from the synchronized result set. -/
theorem claim_C2_amended :
    (∀ (store : List (String × TagVal)) (p : String) (vt : TypeExpr),
      get_dm_type vt true = Except.ok "Long" →
      getParsedValueFromPersistentTags store p vt
        = Except.ok (match tagLookup store p with
            | Option.some (TagVal.long n) => (true, PyValue.int n)
            | _ => (false, PyValue.int 0))) ∧
    (∀ (store : List (String × TagVal)) (p : String) (vt : TypeExpr),
      get_dm_type vt true = Except.ok "Float" →
      getParsedValueFromPersistentTags store p vt
        = Except.ok (match tagLookup store p with
            | Option.some (TagVal.float x) => (true, PyValue.float x)
            | _ => (false, PyValue.float 0))) ∧
    (∀ (store : List (String × TagVal)) (p : String) (vt : TypeExpr),
      get_dm_type vt true = Except.ok "Boolean" →
      getParsedValueFromPersistentTags store p vt
        = Except.ok (match tagLookup store p with
            | Option.some (TagVal.bool b) => (true, PyValue.bool b)
            | _ => (false, PyValue.bool false))) ∧
    (∀ (store : List (String × TagVal)) (pt name : String) (vt : TypeExpr)
      (pyt : PyType),
      get_python_type vt = Except.ok pyt →
      (pyt = PyType.dict ∨ pyt = PyType.list ∨ pyt = PyType.tuple) →
      (getTagAsString store (pt ++ ":\x7b\x7bavailable-paths\x7d\x7d" ++ name)).1 = false →
      loadVar store pt name vt = Except.ok (false, PyValue.none)) ∧
    (∀ (store : List (String × TagVal)) (pt : String)
      (rv : List (String × TypeExpr)),
      rv.Pairwise (fun a b => a.1 ≠ b.1) →
      (∀ kv ∈ rv, ∃ s v, loadVar store pt kv.1 kv.2 = Except.ok (s, v)) →
      ∃ synced, loadVariablesFromDMScript store pt rv = Except.ok synced ∧
        ∀ kv ∈ rv, ∀ v, loadVar store pt kv.1 kv.2 = Except.ok (false, v) →
          dictLookup synced kv.1 = Option.none) := by
  refine ⟨?_, ?_, ?_, ?_, ?_⟩
  · intro store p vt h
    simp only [getParsedValueFromPersistentTags, h]
    cases htl : tagLookup store p with
    | none => simp [getTagAsLong, htl]
    | some tv => cases tv <;> simp [getTagAsLong, htl]
  · intro store p vt h
    simp only [getParsedValueFromPersistentTags, h]
    cases htl : tagLookup store p with
    | none => simp [getTagAsFloat, htl]
    | some tv => cases tv <;> simp [getTagAsFloat, htl]
  · intro store p vt h
    simp only [getParsedValueFromPersistentTags, h]
    cases htl : tagLookup store p with
    | none => simp [getTagAsBoolean, htl]
    | some tv => cases tv <;> simp [getTagAsBoolean, htl]
  · intro store pt name vt pyt hpy htri hman
    simp only [loadVar, hpy]
    rw [if_pos htri]
    cases hm : getTagAsString store (pt ++ ":\x7b\x7bavailable-paths\x7d\x7d" ++ name) with
    | mk succ s0 =>
      rw [hm] at hman
      simp at hman
      simp [loadContainerVar, hm, hman]
  · intro store pt rv hpw hall
    obtain ⟨synced, hfold, hinv⟩ := loadVarsFoldAux store pt rv [] hall
    refine ⟨synced, hfold, ?_⟩
    intro kv hkv v hv
    apply hinv kv.1 rfl
    intro kv' hkv' hk' s v' hv'
    have hkveq : kv' = kv := pairwise_key_unique rv hpw kv' hkv' kv hkv hk'
    rw [hkveq] at hv'
    have hcmp := hv'.symm.trans hv
    injection hcmp with h2
    exact ((Prod.mk.injEq _ _ _ _).mp h2).1

theorem claim_C2_amended_witness :
    getParsedValueFromPersistentTags [] "pt:x" (TypeExpr.str "int")
        = Except.ok (false, PyValue.int 0) ∧
    loadVar [] "pt" "v" (TypeExpr.str "dict") = Except.ok (false, PyValue.none) ∧
    ∃ synced, loadVariablesFromDMScript [] "pt" [("x", TypeExpr.str "int")]
        = Except.ok synced ∧
      ∀ kv ∈ [("x", TypeExpr.str "int")], ∀ v,
        loadVar [] "pt" kv.1 kv.2 = Except.ok (false, v) →
        dictLookup synced kv.1 = Option.none := by
  refine ⟨?_, ?_, ?_⟩
  · exact claim_C2_amended.1 [] "pt:x" (TypeExpr.str "int") (by rfl)
  · exact claim_C2_amended.2.2.2.1 [] "pt" "v" (TypeExpr.str "dict")
      PyType.dict (by rfl) (Or.inl rfl) (by rfl)
  · exact claim_C2_amended.2.2.2.2 [] "pt" [("x", TypeExpr.str "int")]
      (by simp)
      (by
        intro kv hkv
        simp only [List.mem_singleton] at hkv
        subst hkv
        exact ⟨false, PyValue.int 0, by rfl⟩)

end Execdmscript
